import Mathlib

/-!
Shallow embedding of the process automation engine of widg_sid_v22:
the `Process` / `ProcessStep` data model (src/models/process.py), the
manager-level CRUD, validation and step bookkeeping
(src/core/process_manager.py, src/database/db_manager.py) and the
sequential run state machine (src/core/process_executor.py).

Python integers are modelled as `Int`, Python strings as `String`,
`None`-able values as `Option`, and Python `datetime` values by their
canonical `isoformat()` string (see `PyDateTime`).  Stateful code is
modelled by explicit state passing; the events emitted through the Qt
signals are collected into an explicit trace (`Event`).
-/

namespace WidgSid

/-- Python whitespace characters relevant to `str.strip()` (ASCII subset). -/
def pyIsSpace (c : Char) : Bool :=
  c = ' ' || c = '\t' || c = '\n' || c = '\x0d' || c = '\x0b' || c = '\x0c'

/-- Model of Python `str.strip()`: drop whitespace from both ends. -/
def pyStrip (s : String) : String :=
  String.mk (((s.data.dropWhile pyIsSpace).reverse.dropWhile pyIsSpace).reverse)

/-- Model of Python `'T' in s` (single-character containment). -/
def pyContains (s : String) (c : Char) : Bool :=
  s.data.contains c

/-- Model of Python `s.replace('Z', '+00:00')` (single-character needle). -/
def pyReplaceZ (s : String) : String :=
  String.mk (s.data.flatMap fun c => if c = 'Z' then "+00:00".data else [c])

/-- A Python `datetime` value, represented by its canonical
`isoformat()` string.  Stdlib facts used as invariants: `isoformat()`
output always contains a `'T'` separator and never contains `'Z'`
(naive and offset-aware datetimes both print numeric offsets). -/
structure PyDateTime where
  iso : String
  hasT : (iso.data.contains 'T') = true
  noZ : (iso.data.contains 'Z') = false

instance : DecidableEq PyDateTime := fun a b =>
  if h : a.iso = b.iso then
    isTrue (by cases a; cases b; simp_all)
  else
    isFalse (by intro hh; cases hh; exact h rfl)

/-- Model of Python `d.isoformat()`. -/
def PyDateTime.isoformat (d : PyDateTime) : String := d.iso

/-- Modelled from the stdlib: `datetime.fromisoformat` applied after the
source's `replace('Z', '+00:00')`.  The replacement removes every `'Z'`;
parsing succeeds exactly when the string is a valid ISO datetime, which
we approximate by the presence of the `'T'` separator (the only part of
validity the repository's code inspects). -/
def dtFromIsoT (s : String) : Option PyDateTime :=
  let s' := pyReplaceZ s
  if h : (s'.data.contains 'T') = true ∧ (s'.data.contains 'Z') = false then
    some ⟨s', h.1, h.2⟩
  else
    none

/-- Modelled from the stdlib: `datetime.strptime(s, '%Y-%m-%d %H:%M:%S')`
as used for SQLite-style strings (no `'T'`).  The resulting datetime's
canonical ISO string is `s` with the separating space turned into `'T'`;
strings without a space (or containing `'Z'`, which the format rejects)
fail to parse. -/
def dtFromSqlite (s : String) : Option PyDateTime :=
  let s' := String.mk (s.data.map fun c => if c = ' ' then 'T' else c)
  if h : (s'.data.contains 'T') = true ∧ (s'.data.contains 'Z') = false then
    some ⟨s', h.1, h.2⟩
  else
    none

/-- The datetime-parsing block shared by `ProcessStep.from_dict` and
`Process.from_dict` (src/models/process.py lines 82-94 etc.): ISO branch
when the string contains `'T'`, SQLite branch otherwise; any parse error
is swallowed and yields `None`. -/
def pyParseDatetime (s : String) : Option PyDateTime :=
  if pyContains s 'T' then dtFromIsoT s else dtFromSqlite s

/-- The `if data.get(key):`-guarded datetime parse: absent, `None` and
empty-string values all give `None`. -/
def parseDtField (v : Option String) : Option PyDateTime :=
  match v with
  | none => none
  | some s => if s = "" then none else pyParseDatetime s

/-- src/models/process.py `ProcessStep` dataclass. -/
structure ProcessStep where
  id : Option Int := none
  process_id : Option Int := none
  item_id : Int := 0
  step_order : Int := 0
  item_label : String := ""
  item_content : String := ""
  item_type : String := "TEXT"
  item_icon : Option String := none
  item_is_sensitive : Bool := false
  custom_label : Option String := none
  notes : Option String := none
  is_optional : Bool := false
  is_enabled : Bool := true
  wait_for_confirmation : Bool := false
  group_name : Option String := none
  group_order : Int := 0
  condition_type : String := "always"
  added_at : Option PyDateTime := none
deriving DecidableEq

/-- `ProcessStep.get_display_label`: Python `self.custom_label or
self.item_label` — falls back exactly when `custom_label` is `None` or
the empty string (Python falsiness); no trimming is applied. -/
def ProcessStep.get_display_label (s : ProcessStep) : String :=
  match s.custom_label with
  | none => s.item_label
  | some l => if l = "" then s.item_label else l

/-- src/models/process.py `Process` dataclass. -/
structure Process where
  id : Option Int := none
  name : String := ""
  description : Option String := none
  icon : String := "⚙️"
  color : Option String := none
  steps : List ProcessStep := []
  execution_mode : String := "sequential"
  delay_between_steps : Int := 500
  auto_copy_results : Bool := false
  is_pinned : Bool := false
  pinned_order : Int := 0
  order_index : Int := 0
  use_count : Int := 0
  last_used : Option PyDateTime := none
  access_count : Int := 0
  is_active : Bool := true
  is_archived : Bool := false
  created_at : Option PyDateTime := none
  updated_at : Option PyDateTime := none
  tags : List String := []
  category : Option String := none
deriving DecidableEq

/-- The dictionary produced by `ProcessStep.to_dict` (and consumed by
`ProcessStep.from_dict`), modelled as a record with the exact keys the
source emits; datetimes are carried as their serialized strings. -/
structure StepDict where
  id : Option Int
  process_id : Option Int
  item_id : Int
  step_order : Int
  item_label : String
  item_content : String
  item_type : String
  item_icon : Option String
  item_is_sensitive : Bool
  custom_label : Option String
  notes : Option String
  is_optional : Bool
  is_enabled : Bool
  wait_for_confirmation : Bool
  group_name : Option String
  group_order : Int
  condition_type : String
  added_at : Option String
deriving DecidableEq

/-- `ProcessStep.to_dict` (src/models/process.py lines 54-75). -/
def ProcessStep.to_dict (s : ProcessStep) : StepDict :=
  { id := s.id
    process_id := s.process_id
    item_id := s.item_id
    step_order := s.step_order
    item_label := s.item_label
    item_content := s.item_content
    item_type := s.item_type
    item_icon := s.item_icon
    item_is_sensitive := s.item_is_sensitive
    custom_label := s.custom_label
    notes := s.notes
    is_optional := s.is_optional
    is_enabled := s.is_enabled
    wait_for_confirmation := s.wait_for_confirmation
    group_name := s.group_name
    group_order := s.group_order
    condition_type := s.condition_type
    added_at := s.added_at.map PyDateTime.isoformat }

/-- `ProcessStep.from_dict` (src/models/process.py lines 77-115).  The
`data.get(key, default)` calls always find their key on this typed dict;
`bool(...)` applied to an already-boolean value is the identity. -/
def ProcessStep.from_dict (d : StepDict) : ProcessStep :=
  { id := d.id
    process_id := d.process_id
    item_id := d.item_id
    step_order := d.step_order
    item_label := d.item_label
    item_content := d.item_content
    item_type := d.item_type
    item_icon := d.item_icon
    item_is_sensitive := d.item_is_sensitive
    custom_label := d.custom_label
    notes := d.notes
    is_optional := d.is_optional
    is_enabled := d.is_enabled
    wait_for_confirmation := d.wait_for_confirmation
    group_name := d.group_name
    group_order := d.group_order
    condition_type := d.condition_type
    added_at := parseDtField d.added_at }

/-- The dictionary produced by `Process.to_dict`; `tags` is the
comma-joined string (or `None`), `steps` is present only when
`include_steps` was true. -/
structure ProcessDict where
  id : Option Int
  name : String
  description : Option String
  icon : String
  color : Option String
  execution_mode : String
  delay_between_steps : Int
  auto_copy_results : Bool
  is_pinned : Bool
  pinned_order : Int
  order_index : Int
  use_count : Int
  last_used : Option String
  access_count : Int
  is_active : Bool
  is_archived : Bool
  created_at : Option String
  updated_at : Option String
  tags : Option String
  category : Option String
  steps : Option (List StepDict)
deriving DecidableEq

/-- `Process.to_dict` (src/models/process.py lines 199-235). -/
def Process.to_dict (p : Process) (include_steps : Bool) : ProcessDict :=
  { id := p.id
    name := p.name
    description := p.description
    icon := p.icon
    color := p.color
    execution_mode := p.execution_mode
    delay_between_steps := p.delay_between_steps
    auto_copy_results := p.auto_copy_results
    is_pinned := p.is_pinned
    pinned_order := p.pinned_order
    order_index := p.order_index
    use_count := p.use_count
    last_used := p.last_used.map PyDateTime.isoformat
    access_count := p.access_count
    is_active := p.is_active
    is_archived := p.is_archived
    created_at := p.created_at.map PyDateTime.isoformat
    updated_at := p.updated_at.map PyDateTime.isoformat
    tags := if p.tags ≠ [] then some (String.intercalate "," p.tags) else none
    category := p.category
    steps := if include_steps then some (p.steps.map ProcessStep.to_dict) else none }

/-- The tags block of `Process.from_dict`: `if data.get('tags'):` then,
for a string value, split on commas, strip each piece and keep the
non-blank ones.  (The `isinstance(..., list)` branch cannot fire on this
typed dict, whose `tags` slot is the string `to_dict` wrote.) -/
def parseTags (v : Option String) : List String :=
  match v with
  | none => []
  | some s =>
      if s = "" then []
      else (s.splitOn ",").filterMap fun t =>
        let t' := pyStrip t
        if t' = "" then none else some t'

/-- `Process.from_dict` (src/models/process.py lines 237-328), with the
optional `steps` argument.  Python's `if steps:` treats an empty list
like `None` and falls through to the dict's own `steps` entry. -/
def Process.from_dict (d : ProcessDict) (steps : Option (List ProcessStep)) :
    Process :=
  let dictSteps : List ProcessStep :=
    match d.steps with
    | some sd => sd.map ProcessStep.from_dict
    | none => []
  { id := d.id
    name := d.name
    description := d.description
    icon := d.icon
    color := d.color
    execution_mode := d.execution_mode
    delay_between_steps := d.delay_between_steps
    auto_copy_results := d.auto_copy_results
    is_pinned := d.is_pinned
    pinned_order := d.pinned_order
    order_index := d.order_index
    use_count := d.use_count
    last_used := parseDtField d.last_used
    access_count := d.access_count
    is_active := d.is_active
    is_archived := d.is_archived
    created_at := parseDtField d.created_at
    updated_at := parseDtField d.updated_at
    tags := parseTags d.tags
    category := d.category
    steps :=
      match steps with
      | some l => if l.isEmpty then dictSteps else l
      | none => dictSteps }

/-- `Process.get_enabled_steps`. -/
def Process.get_enabled_steps (p : Process) : List ProcessStep :=
  p.steps.filter (·.is_enabled)

/-- `ProcessManager.validate_process` (src/core/process_manager.py
lines 409-440).  Returns `(is_valid, error_message)`. -/
def validate_process (p : Process) : Bool × String :=
  if p.name = "" || pyStrip p.name = "" then
    (false, "Process name is required")
  else if p.name.length > 200 then
    (false, "Process name is too long (max 200 characters)")
  else if !(["sequential", "parallel", "manual"].contains p.execution_mode) then
    (false, "Invalid execution mode. Must be one of: sequential, parallel, manual")
  else if p.delay_between_steps < 0 then
    (false, "Delay between steps cannot be negative")
  else if p.delay_between_steps > 60000 then
    (false, "Delay between steps is too long (max 60 seconds)")
  else
    (true, "")

/-! ## Database model

One record type per SQLite table touched by the claims.  Boolean columns
are stored as the integers the code writes (`0` / `1`). -/

/-- A row of the `items` table (the columns selected by the
`get_process_steps` JOIN). -/
structure ItemRow where
  id : Int
  label : String
  content : String
  typ : String
  icon : Option String
  is_sensitive : Int
deriving DecidableEq

/-- A row of the `process_items` table. -/
structure StepRow where
  id : Int
  process_id : Int
  item_id : Int
  step_order : Int
  custom_label : Option String
  is_optional : Int
  is_enabled : Int
  wait_for_confirmation : Int
  notes : Option String
  group_name : Option String
deriving DecidableEq

/-- A row of the `processes` table (the columns the modelled queries
touch). -/
structure ProcessRow where
  id : Int
  name : String
  description : Option String
  tags : Option String
  use_count : Int
  last_used : Option String
  is_active : Int
  is_archived : Int
deriving DecidableEq

/-- A row of the `process_execution_history` table.  The INSERT in
`DBManager.add_execution_history` sets `process_id`, `total_steps` and
`status='running'`; the remaining columns start at their schema
defaults.  Modelled from the spec: the schema itself is not under src/,
and per the spec an `ExecutionRecord` is created at start with zeroed
counters and null duration / error / completion time. -/
structure ExecRecord where
  id : Nat
  process_id : Int
  status : String
  total_steps : Nat
  completed_steps : Nat
  failed_steps : Nat
  duration_ms : Option Int
  error_message : Option String
  completed_at : Option String
deriving DecidableEq

/-- The database state: the four tables plus the autoincrement counter
feeding `lastrowid` for `process_execution_history` inserts. -/
structure SqlDB where
  items : List ItemRow
  process_items : List StepRow
  processes : List ProcessRow
  history : List ExecRecord
  next_execution_id : Nat
deriving DecidableEq

/-- `DBManager.add_execution_history` (db_manager.py lines 3375-3395):
insert a `running` record and return its id. -/
def add_execution_history (db : SqlDB) (process_id : Int) (total_steps : Nat) :
    SqlDB × Nat :=
  let record : ExecRecord :=
    { id := db.next_execution_id
      process_id := process_id
      status := "running"
      total_steps := total_steps
      completed_steps := 0
      failed_steps := 0
      duration_ms := none
      error_message := none
      completed_at := none }
  ({ db with
      history := db.history ++ [record]
      next_execution_id := db.next_execution_id + 1 },
   db.next_execution_id)

/-- `DBManager.update_execution_history` (lines 3397-3423) at the call
shape used by the executor: sets status, counters, duration and error
message on the matching row, stamping `completed_at` when the status is
terminal. -/
def update_execution_history (db : SqlDB) (execution_id : Nat) (status : String)
    (completed_steps failed_steps : Nat) (duration_ms : Int)
    (error_message : Option String) (now : String) : SqlDB :=
  { db with
    history := db.history.map fun r =>
      if r.id = execution_id then
        { r with
          status := status
          completed_steps := completed_steps
          failed_steps := failed_steps
          duration_ms := some duration_ms
          error_message := error_message
          completed_at :=
            if status = "completed" || status = "failed" || status = "cancelled" then
              some now
            else r.completed_at }
      else r }

/-- `DBManager.update_process` at the call shape used by
`_complete_execution`: bump `use_count` and stamp `last_used` on the
matching row. -/
def update_process_row (db : SqlDB) (process_id : Int) (use_count : Int)
    (last_used : String) : SqlDB :=
  { db with
    processes := db.processes.map fun r =>
      if r.id = process_id then
        { r with use_count := use_count, last_used := some last_used }
      else r }

/-! ## Executor model (src/core/process_executor.py) -/

/-- One emitted Qt signal, or one `time.sleep` of the inter-step delay;
the run produces an ordered trace of these. -/
inductive Event where
  | execution_started (process_id : Int) (name : String)
  | step_started (process_id : Int) (step_order : Int) (label : String)
  | step_completed (process_id : Int) (step_order : Int) (success : Bool) (message : String)
  | execution_progress (process_id : Int) (completed : Nat) (total : Nat)
  | execution_completed (process_id : Int) (success : Bool) (message : String)
  | sleep_ms (ms : Int)
deriving DecidableEq

/-- The executor's ambient collaborators: the optional clipboard manager
(whose `copy` either succeeds or raises, deterministically per content
in a single modelled run), and the wall clock readings used for the
record's duration and timestamps. -/
structure RunEnv where
  clipboard : Option (String → Except String Unit)
  duration_ms : Int
  now_iso : String

/-- The executor's own mutable fields (`__init__`, lines 52-58). -/
structure ExecState where
  is_executing : Bool
  is_paused : Bool
  is_cancelled : Bool
  current_process_id : Option Int
  current_execution_id : Option Nat
  completed_steps : Nat
  failed_steps : Nat
deriving DecidableEq

/-- The freshly initialised executor state. -/
def ExecState.init : ExecState :=
  { is_executing := false, is_paused := false, is_cancelled := false
    current_process_id := none, current_execution_id := none
    completed_steps := 0, failed_steps := 0 }

/-- `ProcessExecutor.execute_step` (lines 168-210): emit `step_started`,
attempt the clipboard copy when a clipboard is configured and the step
has non-empty content, emit `step_completed`, and return
`(success, message)` together with the emitted events.
`wait_for_confirmation` only logs (auto-confirmed). -/
def execute_step (env : RunEnv) (process_id : Int) (s : ProcessStep) :
    Bool × String × List Event :=
  let label := s.get_display_label
  let ev0 := Event.step_started process_id s.step_order label
  let okMsg := "Step " ++ toString s.step_order ++ " completed"
  let okRes := (true, okMsg, [ev0, Event.step_completed process_id s.step_order true okMsg])
  match env.clipboard with
  | none => okRes
  | some copy =>
      if s.item_content = "" then okRes
      else
        match copy s.item_content with
        | Except.ok _ => okRes
        | Except.error e =>
            let msg := "Failed to copy to clipboard: " ++ e
            (false, msg, [ev0, Event.step_completed process_id s.step_order false msg])

/-- How the step loop of `execute_process` ended. -/
inductive LoopExit where
  | finished
  | aborted (step_order : Int) (message : String)
deriving DecidableEq

/-- The `for step in enabled_steps` loop of `execute_process`
(lines 111-146), threading the two counters and collecting the trace.
The `is_cancelled` check and the pause poll at the top of each
iteration are omitted as dead branches: the executor sets both flags to
`False` on entry and a modelled run is single-threaded, so no control
call can flip them mid-run.  `step != enabled_steps[-1]` is dataclass
value equality against the last enabled step. -/
def runSteps (env : RunEnv) (process_id : Int) (delay : Int)
    (lastStep : ProcessStep) (total : Nat) :
    List ProcessStep → Nat → Nat → LoopExit × Nat × Nat × List Event
  | [], c, f => (LoopExit.finished, c, f, [])
  | s :: rest, c, f =>
      let r := execute_step env process_id s
      let delayEvs : List Event :=
        if s ≠ lastStep ∧ delay > 0 then [Event.sleep_ms delay] else []
      if r.1 then
        let rec' := runSteps env process_id delay lastStep total rest (c + 1) f
        (rec'.1, rec'.2.1, rec'.2.2.1,
          (r.2.2 ++ [Event.execution_progress process_id (c + 1) total] ++ delayEvs)
            ++ rec'.2.2.2)
      else if !s.is_optional then
        (LoopExit.aborted s.step_order r.2.1, c, f + 1, r.2.2)
      else
        let rec' := runSteps env process_id delay lastStep total rest c (f + 1)
        (rec'.1, rec'.2.1, rec'.2.2.1,
          (r.2.2 ++ [Event.execution_progress process_id c total] ++ delayEvs)
            ++ rec'.2.2.2)

/-- `ProcessExecutor._complete_execution` (lines 212-259): update the
history row (skipped when `current_execution_id` is `None` or `0`,
Python falsiness), read the current `use_count` (a missing process row
makes `fetchone()[0]` raise, which the method's `except` swallows after
the history update, suppressing the final signal), bump the process
statistics and emit `execution_completed`. -/
def complete_execution (env : RunEnv) (st : ExecState) (db : SqlDB)
    (process_id : Int) (success : Bool) (message : String) : SqlDB × List Event :=
  let db1 :=
    match st.current_execution_id with
    | none => db
    | some eid =>
        if eid = 0 then db
        else
          let status :=
            if st.is_cancelled then "cancelled"
            else if success then "completed" else "failed"
          update_execution_history db eid status st.completed_steps st.failed_steps
            env.duration_ms (if success then none else some message) env.now_iso
  match db1.processes.find? (fun r => r.id = process_id) with
  | none => (db1, [])
  | some row =>
      let db2 := update_process_row db1 process_id (row.use_count + 1) env.now_iso
      (db2, [Event.execution_completed process_id success message])

/-- The `finally` block of `execute_process` (lines 163-166). -/
def ExecState.cleanup (st : ExecState) : ExecState :=
  { st with is_executing := false, current_process_id := none
            current_execution_id := none }

/-- `ProcessExecutor.execute_process` (lines 64-166) as a function of
the collaborator behaviour, the executor state, the database and the
(possibly `None`) process argument.  Returns the Python return value,
the final executor state, the final database and the emitted trace.
`not process.id` is Python falsiness: both `None` and `0` reject. -/
def execute_process (env : RunEnv) (st : ExecState) (db : SqlDB)
    (p? : Option Process) : Bool × ExecState × SqlDB × List Event :=
  if st.is_executing then (false, st, db, [])
  else
    match p? with
    | none => (false, st, db, [])
    | some p =>
        match p.id with
        | none => (false, st, db, [])
        | some pid =>
            if pid = 0 then (false, st, db, [])
            else
              let stRun : ExecState :=
                { st with
                  is_executing := true, is_paused := false, is_cancelled := false
                  current_process_id := some pid
                  completed_steps := 0, failed_steps := 0 }
              let enabled := p.get_enabled_steps
              let total := enabled.length
              if total = 0 then (false, stRun.cleanup, db, [])
              else
                let ev0 := Event.execution_started pid p.name
                let ins := add_execution_history db pid total
                let st1 := { stRun with current_execution_id := some ins.2 }
                let lastStep := enabled.getLastD {}
                let run := runSteps env pid p.delay_between_steps lastStep total enabled 0 0
                match run with
                | (LoopExit.finished, c, f, evs) =>
                    let st2 := { st1 with completed_steps := c, failed_steps := f }
                    let fin := complete_execution env st2 ins.1 pid true "Completed successfully"
                    (true, st2.cleanup, fin.1, ev0 :: (evs ++ fin.2))
                | (LoopExit.aborted ord msg, c, f, evs) =>
                    let m := "Failed at step " ++ toString ord ++ ": " ++ msg
                    let st2 := { st1 with completed_steps := c, failed_steps := f }
                    let fin := complete_execution env st2 ins.1 pid false m
                    (false, st2.cleanup, fin.1, ev0 :: (evs ++ fin.2))

/-! ## Step bookkeeping (db_manager.py / process_manager.py) -/

/-- Insert `a` into `l` in front of the first element `b` with
`le a b`. -/
def insortBy (le : α → α → Bool) (a : α) : List α → List α
  | [] => [a]
  | b :: l => if le a b then a :: b :: l else b :: insortBy le a l

/-- A stable insertion sort: the model of SQL `ORDER BY` (SQLite leaves
the relative order of equal keys unspecified; this picks the stable
refinement, and the theorems below rely only on the output being a
sorted permutation). -/
def sortBy (le : α → α → Bool) : List α → List α
  | [] => []
  | x :: xs => insortBy le x (sortBy le xs)

lemma insortBy_perm (le : α → α → Bool) (a : α) (l : List α) :
    (insortBy le a l).Perm (a :: l) := by
  induction l with
  | nil => simp [insortBy]
  | cons b l ih =>
      by_cases h : le a b
      · simp [insortBy, h]
      · simp only [insortBy, h, if_neg, Bool.false_eq_true, if_false]
        exact (ih.cons b).trans (List.Perm.swap a b l)

lemma sortBy_perm (le : α → α → Bool) (l : List α) : (sortBy le l).Perm l := by
  induction l with
  | nil => exact List.Perm.refl _
  | cons x xs ih => exact (insortBy_perm le x (sortBy le xs)).trans (ih.cons x)

lemma mem_sortBy {le : α → α → Bool} {l : List α} {x : α} :
    x ∈ sortBy le l ↔ x ∈ l :=
  (sortBy_perm le l).mem_iff

lemma pairwise_insortBy {le : α → α → Bool}
    (htrans : ∀ a b c, le a b = true → le b c = true → le a c = true)
    (htot : ∀ a b, le a b || le b a)
    {a : α} {l : List α} (h : l.Pairwise (le · · = true)) :
    (insortBy le a l).Pairwise (le · · = true) := by
  induction l with
  | nil => simp [insortBy]
  | cons b l ih =>
      rcases List.pairwise_cons.mp h with ⟨hb, hl⟩
      by_cases hab : le a b
      · rw [insortBy, if_pos hab]
        refine List.pairwise_cons.mpr ⟨?_, h⟩
        intro x hx
        rw [List.mem_cons] at hx
        rcases hx with rfl | hx
        · exact hab
        · exact htrans a b x hab (hb x hx)
      · rw [insortBy, if_neg hab]
        refine List.pairwise_cons.mpr ⟨?_, ih hl⟩
        intro x hx
        rw [(insortBy_perm le a l).mem_iff, List.mem_cons] at hx
        rcases hx with rfl | hx
        · have := htot x b
          simp [hab] at this
          exact this
        · exact hb x hx

lemma pairwise_sortBy {le : α → α → Bool}
    (htrans : ∀ a b c, le a b = true → le b c = true → le a c = true)
    (htot : ∀ a b, le a b || le b a) (l : List α) :
    (sortBy le l).Pairwise (le · · = true) := by
  induction l with
  | nil => simp [sortBy]
  | cons x xs ih => exact pairwise_insortBy htrans htot ih

/-- The row shape returned by `DBManager.get_process_steps`: the
`process_items` columns plus the joined item columns, aliased as in the
query. -/
structure StepJoin where
  id : Int
  process_id : Int
  item_id : Int
  step_order : Int
  custom_label : Option String
  is_optional : Int
  is_enabled : Int
  wait_for_confirmation : Int
  notes : Option String
  group_name : Option String
  item_label : String
  item_content : String
  item_type : String
  item_icon : Option String
  item_is_sensitive : Int
deriving DecidableEq

/-- The JOIN of one `process_items` row with its item: `None` when the
inner join drops the row. -/
def joinRow (db : SqlDB) (r : StepRow) : Option StepJoin :=
  (db.items.find? fun it => it.id = r.item_id).map fun it =>
    ({ id := r.id
       process_id := r.process_id
       item_id := r.item_id
       step_order := r.step_order
       custom_label := r.custom_label
       is_optional := r.is_optional
       is_enabled := r.is_enabled
       wait_for_confirmation := r.wait_for_confirmation
       notes := r.notes
       group_name := r.group_name
       item_label := it.label
       item_content := it.content
       item_type := it.typ
       item_icon := it.icon
       item_is_sensitive := it.is_sensitive } : StepJoin)

/-- `DBManager.get_process_steps` (lines 3283-3308): the steps of a
process joined with their items (an inner join, so a step whose item id
has no match is dropped), ordered by `step_order` ascending. -/
def get_process_steps (db : SqlDB) (process_id : Int) : List StepJoin :=
  sortBy (fun a b => decide (a.step_order ≤ b.step_order))
    ((db.process_items.filter fun r => r.process_id == process_id).filterMap
      (joinRow db))

/-- `DBManager.delete_process_step` (lines 3335-3349). -/
def delete_process_step (db : SqlDB) (step_id : Int) : SqlDB :=
  { db with process_items := db.process_items.filter fun r => r.id ≠ step_id }

/-- The UPDATE loop of `DBManager.reorder_process_steps`: `enumerate`
assigns `new_order` starting at `k`, touching only rows whose `id` and
`process_id` both match. -/
def reorderLoop (pid : Int) : List StepRow → List Int → Nat → List StepRow
  | tbl, [], _ => tbl
  | tbl, sid :: rest, k =>
      reorderLoop pid
        (tbl.map fun r =>
          if r.id = sid ∧ r.process_id = pid then
            { r with step_order := (k : Int) }
          else r)
        rest (k + 1)

/-- `DBManager.reorder_process_steps` (lines 3351-3371). -/
def reorder_process_steps (db : SqlDB) (process_id : Int)
    (step_ids_in_order : List Int) : SqlDB :=
  { db with process_items := reorderLoop process_id db.process_items step_ids_in_order 1 }

/-- `ProcessManager.remove_step` (process_manager.py lines 274-300):
delete the step, then renormalize the remaining steps of the process,
feeding their ids in `step_order` order back to
`reorder_process_steps` (skipped when none remain). -/
def remove_step (db : SqlDB) (process_id step_id : Int) : SqlDB :=
  let db1 := delete_process_step db step_id
  let ids := (get_process_steps db1 process_id).map (·.id)
  if ids.isEmpty then db1 else reorder_process_steps db1 process_id ids

/-! ## Search (db_manager.py `search_processes`) -/

/-- SQLite `LIKE` case folding: ASCII letters only. -/
def sqliteLower (c : Char) : Char :=
  if 'A' ≤ c ∧ c ≤ 'Z' then Char.ofNat (c.toNat + 32) else c

/-- SQLite `LIKE` pattern matching (no ESCAPE clause): `%` matches any
sequence (tried against every suffix of the subject), `_` any single
character, everything else matches case-insensitively on ASCII
letters. -/
def likeMatch : List Char → List Char → Bool
  | [], s => s.isEmpty
  | p :: ps, s =>
      if p = '%' then
        s.tails.any fun t => likeMatch ps t
      else
        match s with
        | [] => false
        | c :: s' => (p = '_' || sqliteLower p = sqliteLower c) && likeMatch ps s'

/-- `column LIKE pattern` on a string column value. -/
def sqlLike (s : String) (pat : String) : Bool := likeMatch pat.data s.data

/-- `column LIKE pattern` on a nullable column: `NULL LIKE x` is `NULL`,
which the surrounding `OR` / `WHERE` treats as false. -/
def optLike (v : Option String) (pat : String) : Bool :=
  match v with
  | none => false
  | some s => sqlLike s pat

/-- `DBManager.search_processes` (lines 3207-3227): rows whose name,
description or tags `LIKE`-match `%query%` and which are active and not
archived, ordered by `use_count` descending then `name` ascending
(Lean's `String` order and SQLite's memcmp on UTF-8 agree). -/
def search_processes (db : SqlDB) (query : String) : List ProcessRow :=
  let pat := "%" ++ query ++ "%"
  let rows := db.processes.filter fun r =>
    (sqlLike r.name pat || optLike r.description pat || optLike r.tags pat)
      && r.is_active == 1 && r.is_archived == 0
  sortBy
    (fun a b =>
      decide (b.use_count < a.use_count)
        || (decide (a.use_count = b.use_count) && decide (a.name ≤ b.name)))
    rows

/-! ## Helper predicates over traces and runs -/

/-- Did `execute_step` report success for this step? -/
def stepOk (env : RunEnv) (pid : Int) (s : ProcessStep) : Bool :=
  (execute_step env pid s).1

/-- Is this trace entry a `step_started` signal? -/
def isStepStartedEv : Event → Bool
  | Event.step_started _ _ _ => true
  | _ => false

/-- Is this trace entry an inter-step sleep? -/
def isSleepEv : Event → Bool
  | Event.sleep_ms _ => true
  | _ => false

/-- The prefix of the enabled steps a run processes to completion: every
step before the first non-optional failure (exclusive). -/
def nonAborting (env : RunEnv) (pid : Int) : List ProcessStep → List ProcessStep
  | [] => []
  | s :: rest =>
      if stepOk env pid s || s.is_optional then s :: nonAborting env pid rest else []

/-- The prefix of the enabled steps a run starts: every step before the
first non-optional failure, plus that failing step itself. -/
def startedSteps (env : RunEnv) (pid : Int) : List ProcessStep → List ProcessStep
  | [] => []
  | s :: rest =>
      if stepOk env pid s || s.is_optional then s :: startedSteps env pid rest else [s]

/-- The history row with the given id. -/
def getRecord (db : SqlDB) (i : Nat) : Option ExecRecord :=
  db.history.find? fun r => r.id = i

/-! ## Concrete inputs used by witnesses and counterexamples -/

/-- An environment with no clipboard configured. -/
def envNone : RunEnv := { clipboard := none, duration_ms := 0, now_iso := "t0" }

/-- An environment whose clipboard raises exactly on the content "b". -/
def envBoomB : RunEnv :=
  { clipboard := some fun c => if c = "b" then Except.error "boom" else Except.ok ()
    duration_ms := 42, now_iso := "t1" }

def stepA : ProcessStep := { item_id := 1, step_order := 1, item_label := "A", item_content := "a" }
def stepB : ProcessStep := { item_id := 2, step_order := 2, item_label := "B", item_content := "b" }
def stepBopt : ProcessStep :=
  { item_id := 2, step_order := 2, item_label := "B", item_content := "b", is_optional := true }
def stepC : ProcessStep := { item_id := 3, step_order := 3, item_label := "C", item_content := "c" }

/-- A database holding just the process row the executor's statistics
update needs. -/
def dbExec : SqlDB :=
  { items := [], process_items := []
    processes := [{ id := 7, name := "P", description := none, tags := none, use_count := 3
                    last_used := none, is_active := 1, is_archived := 0 }]
    history := [], next_execution_id := 1 }

/-! ## Claim C4 — validation -/

lemma pyStrip_empty : pyStrip "" = "" := rfl

lemma name_check_iff (s : String) :
    (decide (s = "") || decide (pyStrip s = "")) = decide (pyStrip s = "") := by
  by_cases h : s = ""
  · subst h; simp [pyStrip_empty]
  · simp [h]

/-- A process whose name is a single space: non-empty, yet rejected. -/
def spaceNameProc : Process := { name := " " }

/-- C4 counterexample: the claim's "succeeds iff p.name is non-empty and
at most 200 characters, ..." fails on a whitespace-only name, which
meets every condition on the right (non-empty name of one character,
mode `sequential`, delay 500) but is rejected as a missing name. -/
theorem C4_whitespace_name_cex :
    validate_process spaceNameProc = (false, "Process name is required") ∧
    spaceNameProc.name ≠ "" ∧
    spaceNameProc.name.length ≤ 200 ∧
    spaceNameProc.execution_mode ∈ (["sequential", "parallel", "manual"] : List String) ∧
    0 ≤ spaceNameProc.delay_between_steps ∧
    spaceNameProc.delay_between_steps ≤ 60000 := by
  refine ⟨rfl, by decide, by decide, by decide, by decide, by decide⟩

/-- C4 (amended): `validate_process` succeeds iff the name is non-blank
(non-empty after stripping whitespace), at most 200 characters, the mode
is one of sequential / parallel / manual and the delay lies in
`[0, 60000]`; when it fails, it reports the first violated rule in the
fixed order blank name → name too long → invalid mode → negative
delay → delay too long. -/
theorem C4_validate_first_violation (p : Process) :
    (validate_process p = (true, "") ↔
      (pyStrip p.name ≠ "" ∧ p.name.length ≤ 200 ∧
        p.execution_mode ∈ (["sequential", "parallel", "manual"] : List String) ∧
        0 ≤ p.delay_between_steps ∧ p.delay_between_steps ≤ 60000)) ∧
    (validate_process p = (false, "Process name is required") ↔ pyStrip p.name = "") ∧
    (validate_process p = (false, "Process name is too long (max 200 characters)") ↔
      (pyStrip p.name ≠ "" ∧ p.name.length > 200)) ∧
    (validate_process p =
        (false, "Invalid execution mode. Must be one of: sequential, parallel, manual") ↔
      (pyStrip p.name ≠ "" ∧ p.name.length ≤ 200 ∧
        p.execution_mode ∉ (["sequential", "parallel", "manual"] : List String))) ∧
    (validate_process p = (false, "Delay between steps cannot be negative") ↔
      (pyStrip p.name ≠ "" ∧ p.name.length ≤ 200 ∧
        p.execution_mode ∈ (["sequential", "parallel", "manual"] : List String) ∧
        p.delay_between_steps < 0)) ∧
    (validate_process p = (false, "Delay between steps is too long (max 60 seconds)") ↔
      (pyStrip p.name ≠ "" ∧ p.name.length ≤ 200 ∧
        p.execution_mode ∈ (["sequential", "parallel", "manual"] : List String) ∧
        0 ≤ p.delay_between_steps ∧ p.delay_between_steps > 60000)) := by
  unfold validate_process
  simp only [name_check_iff]
  split_ifs with h1 h2 h3 h4 h5 <;>
    simp_all [List.elem_iff, Prod.ext_iff] <;> first | omega | tauto

/-- A process that passes every validation rule. -/
def okProc : Process := { name := "demo" }

/-- C4 witness: the amended characterisation applied to a concrete
valid process. -/
theorem C4_validate_witness : validate_process okProc = (true, "") :=
  (C4_validate_first_violation okProc).1.mpr
    ⟨by decide, by decide, by decide, by decide, by decide⟩

/-! ## Claim C8 — the step-started display label -/

/-- A step with a padded custom label. -/
def stepPadded : ProcessStep :=
  { item_id := 1, step_order := 1, item_label := "A", custom_label := some " x " }

/-- A step whose custom label is whitespace-only. -/
def stepWsLabel : ProcessStep :=
  { item_id := 1, step_order := 1, item_label := "A", custom_label := some " " }

/-- C8 counterexample: the claim predicts the trimmed custom label
(`"x"`) for the padded step and the fallback `item_label` (`"A"`) for
the whitespace-only step; the code emits the custom label verbatim in
both cases. -/
theorem C8_label_not_trimmed_cex :
    (execute_step envNone 1 stepPadded).2.2.head? =
        some (Event.step_started 1 1 " x ") ∧
    pyStrip " x " = "x" ∧ (" x " : String) ≠ "x" ∧
    (execute_step envNone 1 stepWsLabel).2.2.head? =
        some (Event.step_started 1 1 " ") ∧
    stepWsLabel.item_label = "A" ∧ (" " : String) ≠ "A" := by
  refine ⟨rfl, by decide, by decide, rfl, rfl, by decide⟩

/-- C8 (amended): every `execute_step` trace opens with a
`step_started` event carrying `(process_id, step_order, display_label)`
where `display_label` is the verbatim (untrimmed) `custom_label`
whenever that is neither `None` nor the empty string — including
whitespace-only or padded values — and `item_label` otherwise. -/
theorem C8_step_started_label (env : RunEnv) (pid : Int) (s : ProcessStep) :
    ((execute_step env pid s).2.2.head? =
      some (Event.step_started pid s.step_order s.get_display_label)) ∧
    (∀ l, s.custom_label = some l → l ≠ "" → s.get_display_label = l) ∧
    ((s.custom_label = none ∨ s.custom_label = some "") →
      s.get_display_label = s.item_label) := by
  refine ⟨?_, ?_, ?_⟩
  · unfold execute_step
    cases env.clipboard <;> dsimp only <;> [skip; split] <;> try rfl
    split <;> rfl
  · intro l hl hne
    simp [ProcessStep.get_display_label, hl, hne]
  · rintro (h | h) <;> simp [ProcessStep.get_display_label, h]

/-- C8 witness: the amended label rule applied to the concrete padded
step. -/
theorem C8_label_witness :
    (execute_step envNone 1 stepPadded).2.2.head? =
      some (Event.step_started 1 1 stepPadded.get_display_label) ∧
    stepPadded.get_display_label = " x " := by
  refine ⟨(C8_step_started_label envNone 1 stepPadded).1, ?_⟩
  exact (C8_step_started_label envNone 1 stepPadded).2.1 " x " rfl (by decide)

/-! ## Claim C2 — guard clauses of execute_process -/

/-- C2: each failed guard — executor already running, missing process,
unpersisted (`None` or `0`) id, or zero enabled steps — returns failure
without creating an `ExecutionRecord`; the already-running case leaves
the state (counters, current ids) entirely untouched. -/
theorem C2_guards (env : RunEnv) (st : ExecState) (db : SqlDB) (p? : Option Process) :
    (st.is_executing = true → execute_process env st db p? = (false, st, db, [])) ∧
    (p? = none → execute_process env st db p? = (false, st, db, [])) ∧
    (∀ p, p? = some p → (p.id = none ∨ p.id = some 0) →
      execute_process env st db p? = (false, st, db, [])) ∧
    (∀ p, p? = some p → p.get_enabled_steps = [] →
      (execute_process env st db p?).1 = false ∧
      (execute_process env st db p?).2.2.1 = db) := by
  refine ⟨?_, ?_, ?_, ?_⟩
  · intro h; simp [execute_process, h]
  · intro h; subst h; simp [execute_process]
  · rintro p rfl (h | h) <;> simp [execute_process, h]
  · rintro p rfl h
    by_cases hex : st.is_executing
    · simp [execute_process, hex]
    · cases hid : p.id with
      | none => simp [execute_process, hex, hid]
      | some pid =>
          by_cases hz : pid = 0 <;>
            simp [execute_process, hex, hid, hz, h]

/-- A process without a persisted id. -/
def procNoId : Process := { name := "X", steps := [stepA] }

/-- A persisted process with no enabled steps. -/
def procNoEnabled : Process :=
  { id := some 9, name := "X", steps := [{ stepA with is_enabled := false }] }

/-- An executor state with a run already active. -/
def busyState : ExecState := { ExecState.init with is_executing := true }

/-- C2 witness: the four guards at concrete inputs. -/
theorem C2_guards_witness :
    execute_process envNone busyState dbExec (some okProc) =
      (false, busyState, dbExec, []) ∧
    execute_process envNone ExecState.init dbExec none =
      (false, ExecState.init, dbExec, []) ∧
    execute_process envNone ExecState.init dbExec (some procNoId) =
      (false, ExecState.init, dbExec, []) ∧
    (execute_process envNone ExecState.init dbExec (some procNoEnabled)).1 = false ∧
    (execute_process envNone ExecState.init dbExec (some procNoEnabled)).2.2.1 = dbExec := by
  refine ⟨(C2_guards envNone busyState dbExec (some okProc)).1 rfl,
    (C2_guards envNone ExecState.init dbExec none).2.1 rfl,
    (C2_guards envNone ExecState.init dbExec (some procNoId)).2.2.1 procNoId rfl
      (Or.inl rfl),
    ((C2_guards envNone ExecState.init dbExec (some procNoEnabled)).2.2.2 procNoEnabled
      rfl (by decide)).1,
    ((C2_guards envNone ExecState.init dbExec (some procNoEnabled)).2.2.2 procNoEnabled
      rfl (by decide)).2⟩

/-! ## Claim C10 — search only returns active, non-archived rows -/

/-- C10: every row returned by `search_processes` is active and not
archived, whatever the query; inactive or archived rows are filtered
out by the WHERE clause even when they match. -/
theorem C10_search_only_active (db : SqlDB) (q : String) (r : ProcessRow) :
    r ∈ search_processes db q → r.is_active = 1 ∧ r.is_archived = 0 := by
  intro hr
  unfold search_processes at hr
  have hmem := mem_sortBy.mp hr
  have hpred := List.of_mem_filter hmem
  simp only [Bool.and_eq_true, beq_iff_eq] at hpred
  exact ⟨hpred.1.2, hpred.2⟩

/-- A matching archived row. -/
def rowArchived : ProcessRow :=
  { id := 1, name := "alpha", description := none, tags := none, use_count := 0
    last_used := none, is_active := 1, is_archived := 1 }

/-- A matching active row. -/
def rowActive : ProcessRow :=
  { id := 2, name := "alpine", description := none, tags := none, use_count := 5
    last_used := none, is_active := 1, is_archived := 0 }

/-- A table holding one archived and one active matching row. -/
def dbSearch : SqlDB :=
  { items := [], process_items := [], processes := [rowArchived, rowActive]
    history := [], next_execution_id := 1 }

/-- C10 witness: the guarantee applied to the one row the concrete
search returns. -/
theorem C10_search_witness : rowActive.is_active = 1 ∧ rowActive.is_archived = 0 :=
  C10_search_only_active dbSearch "alp" rowActive (by decide)

/-! ## Claim C6 — serialization round-trip -/

lemma flatMap_eq_self_of_not_contains {l : List Char}
    (h : l.contains 'Z' = false) :
    (l.flatMap fun c => if c = 'Z' then "+00:00".data else [c]) = l := by
  induction l with
  | nil => rfl
  | cons c t ih =>
      simp only [List.contains_cons, Bool.or_eq_false_iff] at h
      have hc : c ≠ 'Z' := by
        intro hh
        subst hh
        simp at h
      simp [List.flatMap_cons, hc, ih h.2]

lemma pyReplaceZ_eq_self {s : String} (h : s.data.contains 'Z' = false) :
    pyReplaceZ s = s := by
  unfold pyReplaceZ
  rw [flatMap_eq_self_of_not_contains h]

lemma pyParseDatetime_isoformat (d : PyDateTime) :
    pyParseDatetime d.iso = some d := by
  obtain ⟨s, hT, hZ⟩ := d
  unfold pyParseDatetime pyContains
  rw [hT, if_pos rfl]
  unfold dtFromIsoT
  simp only [pyReplaceZ_eq_self hZ]
  rw [dif_pos ⟨hT, hZ⟩]

lemma iso_ne_empty (d : PyDateTime) : d.iso ≠ "" := by
  intro h
  have := d.hasT
  rw [h] at this
  simp [List.contains] at this

lemma parseDtField_isoformat (o : Option PyDateTime) :
    parseDtField (o.map PyDateTime.isoformat) = o := by
  cases o with
  | none => rfl
  | some d =>
      show (if d.iso = "" then none else pyParseDatetime d.iso) = some d
      rw [if_neg (iso_ne_empty d), pyParseDatetime_isoformat]

lemma step_to_dict_from_dict (s : ProcessStep) :
    ProcessStep.from_dict s.to_dict = s := by
  cases s
  simp [ProcessStep.from_dict, ProcessStep.to_dict, parseDtField_isoformat]

/-- C6: `Process.from_dict ∘ Process.to_dict` restores every scalar
field of the process — including the serialized datetimes — and the
ordered step list, and every `ProcessStep` round-trips exactly through
`ProcessStep.to_dict` / `ProcessStep.from_dict`.  (The `tags` list is
not a scalar and is re-parsed from its comma-joined encoding.) -/
theorem C6_roundtrip (p : Process) :
    (∀ s : ProcessStep, ProcessStep.from_dict s.to_dict = s) ∧
    ((Process.from_dict (p.to_dict true) none).id = p.id ∧
      (Process.from_dict (p.to_dict true) none).name = p.name ∧
      (Process.from_dict (p.to_dict true) none).description = p.description ∧
      (Process.from_dict (p.to_dict true) none).icon = p.icon ∧
      (Process.from_dict (p.to_dict true) none).color = p.color ∧
      (Process.from_dict (p.to_dict true) none).execution_mode = p.execution_mode ∧
      (Process.from_dict (p.to_dict true) none).delay_between_steps =
        p.delay_between_steps ∧
      (Process.from_dict (p.to_dict true) none).auto_copy_results =
        p.auto_copy_results ∧
      (Process.from_dict (p.to_dict true) none).is_pinned = p.is_pinned ∧
      (Process.from_dict (p.to_dict true) none).pinned_order = p.pinned_order ∧
      (Process.from_dict (p.to_dict true) none).order_index = p.order_index ∧
      (Process.from_dict (p.to_dict true) none).use_count = p.use_count ∧
      (Process.from_dict (p.to_dict true) none).last_used = p.last_used ∧
      (Process.from_dict (p.to_dict true) none).access_count = p.access_count ∧
      (Process.from_dict (p.to_dict true) none).is_active = p.is_active ∧
      (Process.from_dict (p.to_dict true) none).is_archived = p.is_archived ∧
      (Process.from_dict (p.to_dict true) none).created_at = p.created_at ∧
      (Process.from_dict (p.to_dict true) none).updated_at = p.updated_at ∧
      (Process.from_dict (p.to_dict true) none).category = p.category ∧
      (Process.from_dict (p.to_dict true) none).steps = p.steps) := by
  refine ⟨step_to_dict_from_dict, ?_⟩
  have hmap : ∀ l : List ProcessStep,
      List.map (ProcessStep.from_dict ∘ ProcessStep.to_dict) l = l := by
    intro l
    induction l with
    | nil => rfl
    | cons s t ih => simp [ih, step_to_dict_from_dict]
  have hsteps : (Process.from_dict (p.to_dict true) none).steps = p.steps := by
    simp [Process.from_dict, Process.to_dict, hmap]
  refine ⟨rfl, rfl, rfl, rfl, rfl, rfl, rfl, rfl, rfl, rfl, rfl, rfl,
    parseDtField_isoformat p.last_used, rfl, rfl, rfl,
    parseDtField_isoformat p.created_at, parseDtField_isoformat p.updated_at, rfl,
    hsteps⟩

/-! ## Executor loop lemmas -/

lemma execute_step_filters (env : RunEnv) (pid : Int) (s : ProcessStep) :
    ((execute_step env pid s).2.2.filter isStepStartedEv =
      [Event.step_started pid s.step_order s.get_display_label]) ∧
    ((execute_step env pid s).2.2.filter isSleepEv = []) := by
  rcases hc : env.clipboard with _ | copy
  · simp [execute_step, hc, isStepStartedEv, isSleepEv]
  · by_cases h : s.item_content = ""
    · simp [execute_step, hc, h, isStepStartedEv, isSleepEv]
    · rcases hr : copy s.item_content with e | a <;>
        simp [execute_step, hc, h, hr, isStepStartedEv, isSleepEv]

lemma runSteps_all_pass (env : RunEnv) (pid : Int) (d : Int) (last : ProcessStep)
    (total : Nat) (l : List ProcessStep) :
    ∀ c f, (∀ s ∈ l, s.is_optional = true ∨ stepOk env pid s = true) →
      (runSteps env pid d last total l c f).1 = LoopExit.finished ∧
      (runSteps env pid d last total l c f).2.1 =
        c + (l.filter (stepOk env pid)).length ∧
      (runSteps env pid d last total l c f).2.2.1 =
        f + (l.filter fun s => !stepOk env pid s).length := by
  induction l with
  | nil => intro c f _; simp [runSteps]
  | cons s rest ih =>
      intro c f h
      have hs := h s (List.mem_cons_self s rest)
      have hrest : ∀ x ∈ rest, x.is_optional = true ∨ stepOk env pid x = true :=
        fun x hx => h x (List.mem_cons_of_mem s hx)
      by_cases hok : stepOk env pid s
      · have hok' : (execute_step env pid s).1 = true := hok
        simp only [runSteps, hok', if_pos]
        obtain ⟨e1, e2, e3⟩ := ih (c + 1) f hrest
        refine ⟨e1, ?_, ?_⟩
        · rw [e2, List.filter_cons_of_pos hok]
          simp [Nat.add_comm, Nat.add_assoc, Nat.add_left_comm]
        · rw [e3]
          have : (!stepOk env pid s) = false := by simp [hok]
          rw [List.filter_cons_of_neg (by simp [this])]
      · have hopt : s.is_optional = true := by
          rcases hs with h' | h'
          · exact h'
          · exact absurd h' hok
        have hok' : (execute_step env pid s).1 = false := by
          simpa [stepOk] using hok
        simp only [runSteps, hok', Bool.false_eq_true, if_false, hopt,
          Bool.not_true, if_neg]
        obtain ⟨e1, e2, e3⟩ := ih c (f + 1) hrest
        refine ⟨e1, ?_, ?_⟩
        · rw [e2, List.filter_cons_of_neg (by simp [stepOk, hok'])]
        · rw [e3, List.filter_cons_of_pos (by simp [stepOk, hok'])]
          simp [Nat.add_comm, Nat.add_assoc, Nat.add_left_comm]

lemma runSteps_abort (env : RunEnv) (pid : Int) (d : Int) (last : ProcessStep)
    (total : Nat) (l₁ : List ProcessStep) (s : ProcessStep) (l₂ : List ProcessStep) :
    ∀ c f, (∀ x ∈ l₁, x.is_optional = true ∨ stepOk env pid x = true) →
      stepOk env pid s = false → s.is_optional = false →
      (runSteps env pid d last total (l₁ ++ s :: l₂) c f).1 =
        LoopExit.aborted s.step_order (execute_step env pid s).2.1 ∧
      (runSteps env pid d last total (l₁ ++ s :: l₂) c f).2.1 =
        c + (l₁.filter (stepOk env pid)).length ∧
      (runSteps env pid d last total (l₁ ++ s :: l₂) c f).2.2.1 =
        f + (l₁.filter fun x => !stepOk env pid x).length + 1 := by
  induction l₁ with
  | nil =>
      intro c f _ hfail hreq
      have hok' : (execute_step env pid s).1 = false := by
        simpa [stepOk] using hfail
      simp [runSteps, hok', hreq]
  | cons x rest ih =>
      intro c f h hfail hreq
      have hx := h x (List.mem_cons_self x rest)
      have hrest : ∀ y ∈ rest, y.is_optional = true ∨ stepOk env pid y = true :=
        fun y hy => h y (List.mem_cons_of_mem x hy)
      by_cases hok : stepOk env pid x
      · have hok' : (execute_step env pid x).1 = true := hok
        simp only [List.cons_append, runSteps, hok', if_pos]
        simp only [List.append_eq]
        obtain ⟨e1, e2, e3⟩ := ih (c + 1) f hrest hfail hreq
        refine ⟨e1, ?_, ?_⟩
        · rw [e2, List.filter_cons_of_pos hok]
          simp [Nat.add_comm, Nat.add_assoc, Nat.add_left_comm]
        · rw [e3, List.filter_cons_of_neg (by simp [hok])]
      · have hopt : x.is_optional = true := by
          rcases hx with h' | h'
          · exact h'
          · exact absurd h' hok
        have hok' : (execute_step env pid x).1 = false := by
          simpa [stepOk] using hok
        simp only [List.cons_append, runSteps, hok', Bool.false_eq_true, if_false,
          hopt, Bool.not_true, if_neg]
        simp only [List.append_eq]
        obtain ⟨e1, e2, e3⟩ := ih c (f + 1) hrest hfail hreq
        refine ⟨e1, ?_, ?_⟩
        · rw [e2, List.filter_cons_of_neg (by simp [stepOk, hok'])]
        · rw [e3, List.filter_cons_of_pos (by simp [stepOk, hok'])]
          simp [Nat.add_comm, Nat.add_assoc, Nat.add_left_comm]

/-- The history row seen after the run's insert-then-update pair: the
freshly inserted record carries the terminal status, counters, duration
and error message. -/
lemma getRecord_insert_update (db : SqlDB) (pid : Int) (total : Nat)
    (status : String) (c f : Nat) (dur : Int) (err : Option String) (now : String)
    (hfresh : ∀ r ∈ db.history, r.id ≠ db.next_execution_id) :
    getRecord
      (update_execution_history (add_execution_history db pid total).1
        db.next_execution_id status c f dur err now)
      db.next_execution_id =
    some
      { id := db.next_execution_id, process_id := pid, status := status
        total_steps := total, completed_steps := c, failed_steps := f
        duration_ms := some dur, error_message := err
        completed_at :=
          if status = "completed" || status = "failed" || status = "cancelled" then
            some now
          else none } := by
  unfold getRecord update_execution_history add_execution_history
  simp only [List.map_append, List.find?_append]
  have h1 : (db.history.map fun r =>
      if r.id = db.next_execution_id then
        { r with
          status := status, completed_steps := c, failed_steps := f
          duration_ms := some dur, error_message := err
          completed_at :=
            if status = "completed" || status = "failed" || status = "cancelled" then
              some now
            else r.completed_at }
      else r).find? (fun r => r.id = db.next_execution_id) = none := by
    rw [List.find?_eq_none]
    intro x hx
    rcases List.mem_map.mp hx with ⟨r, hr, hxr⟩
    have hne := hfresh r hr
    rw [if_neg hne] at hxr
    subst hxr
    simp [hne]
  rw [h1]
  simp

lemma complete_execution_history (env : RunEnv) (st : ExecState) (db : SqlDB)
    (pid : Int) (success : Bool) (msg : String) (eid : Nat)
    (h1 : st.current_execution_id = some eid) (h2 : eid ≠ 0)
    (h3 : st.is_cancelled = false) :
    (complete_execution env st db pid success msg).1.history =
      (update_execution_history db eid (if success then "completed" else "failed")
        st.completed_steps st.failed_steps env.duration_ms
        (if success then none else some msg) env.now_iso).history := by
  unfold complete_execution
  rw [h1]
  simp only [h2, if_neg, h3, Bool.false_eq_true, if_false]
  set db1 := update_execution_history db eid (if success then "completed" else "failed")
    st.completed_steps st.failed_steps env.duration_ms
    (if success then none else some msg) env.now_iso with hdb1
  rcases hfind : db1.processes.find? fun r => r.id = pid with _ | row
  · simp [hfind]
  · simp [hfind, update_process_row]

lemma complete_execution_events (env : RunEnv) (st : ExecState) (db : SqlDB)
    (pid : Int) (success : Bool) (msg : String) :
    (complete_execution env st db pid success msg).2 = [] ∨
    (complete_execution env st db pid success msg).2 =
      [Event.execution_completed pid success msg] := by
  unfold complete_execution
  split
  · dsimp only
    split <;> simp
  · split <;> (dsimp only; split <;> simp)

lemma complete_execution_record (env : RunEnv) (st : ExecState) (db : SqlDB)
    (pid : Int) (success : Bool) (msg : String) (eid : Nat) (i : Nat)
    (h1 : st.current_execution_id = some eid) (h2 : eid ≠ 0)
    (h3 : st.is_cancelled = false) :
    getRecord (complete_execution env st db pid success msg).1 i =
      getRecord
        (update_execution_history db eid (if success then "completed" else "failed")
          st.completed_steps st.failed_steps env.duration_ms
          (if success then none else some msg) env.now_iso) i := by
  unfold getRecord
  rw [complete_execution_history env st db pid success msg eid h1 h2 h3]

lemma complete_execution_record_ok (env : RunEnv) (st : ExecState) (db : SqlDB)
    (pid : Int) (msg : String) (eid : Nat) (i : Nat)
    (h1 : st.current_execution_id = some eid) (h2 : eid ≠ 0)
    (h3 : st.is_cancelled = false) :
    getRecord (complete_execution env st db pid true msg).1 i =
      getRecord
        (update_execution_history db eid "completed" st.completed_steps
          st.failed_steps env.duration_ms none env.now_iso) i := by
  rw [complete_execution_record env st db pid true msg eid i h1 h2 h3]
  rfl

lemma complete_execution_record_fail (env : RunEnv) (st : ExecState) (db : SqlDB)
    (pid : Int) (msg : String) (eid : Nat) (i : Nat)
    (h1 : st.current_execution_id = some eid) (h2 : eid ≠ 0)
    (h3 : st.is_cancelled = false) :
    getRecord (complete_execution env st db pid false msg).1 i =
      getRecord
        (update_execution_history db eid "failed" st.completed_steps
          st.failed_steps env.duration_ms (some msg) env.now_iso) i := by
  rw [complete_execution_record env st db pid false msg eid i h1 h2 h3]
  rfl

lemma complete_execution_emit (env : RunEnv) (st : ExecState) (db : SqlDB)
    (pid : Int) (success : Bool) (msg : String)
    (hrow : (db.processes.find? fun r => r.id = pid).isSome) :
    (complete_execution env st db pid success msg).2 =
      [Event.execution_completed pid success msg] := by
  obtain ⟨row, hrow'⟩ := Option.isSome_iff_exists.mp hrow
  unfold complete_execution
  split
  · dsimp only
    rw [hrow']
  · split <;> (dsimp only [update_execution_history]; rw [hrow'])

/-! ## Claim C3 — a run whose required steps all succeed completes -/

/-- C3: when every enabled non-optional step succeeds (optional steps
may fail), `execute_process` returns `True`, the record's terminal
status is `completed` with `completed_steps` the number of successful
steps and `failed_steps` the number of failed (necessarily optional)
steps, and the final signal carries the message
"Completed successfully". -/
theorem C3_optional_failures_still_complete (env : RunEnv) (st : ExecState)
    (db : SqlDB) (p : Process) (pid : Int)
    (hex : st.is_executing = false)
    (hid : p.id = some pid) (hpid : pid ≠ 0)
    (hne : p.get_enabled_steps ≠ [])
    (hpass : ∀ s ∈ p.get_enabled_steps,
      s.is_optional = true ∨ stepOk env pid s = true)
    (hfresh : ∀ r ∈ db.history, r.id ≠ db.next_execution_id)
    (hnz : db.next_execution_id ≠ 0)
    (hrow : (db.processes.find? fun r => r.id = pid).isSome) :
    (execute_process env st db (some p)).1 = true ∧
    (getRecord (execute_process env st db (some p)).2.2.1
        db.next_execution_id).map
        (fun r => (r.status, r.completed_steps, r.failed_steps)) =
      some ("completed",
        (p.get_enabled_steps.filter (stepOk env pid)).length,
        (p.get_enabled_steps.filter fun s => !stepOk env pid s).length) ∧
    (execute_process env st db (some p)).2.2.2.getLast? =
      some (Event.execution_completed pid true "Completed successfully") := by
  have htot : p.get_enabled_steps.length ≠ 0 := by
    simpa [List.length_eq_zero] using hne
  obtain ⟨e1, e2, e3⟩ := runSteps_all_pass env pid p.delay_between_steps
    (p.get_enabled_steps.getLastD {}) p.get_enabled_steps.length
    p.get_enabled_steps 0 0 hpass
  have hrun : runSteps env pid p.delay_between_steps
      (p.get_enabled_steps.getLastD {}) p.get_enabled_steps.length
      p.get_enabled_steps 0 0 =
      (LoopExit.finished,
       (p.get_enabled_steps.filter (stepOk env pid)).length,
       (p.get_enabled_steps.filter fun s => !stepOk env pid s).length,
       (runSteps env pid p.delay_between_steps (p.get_enabled_steps.getLastD {})
         p.get_enabled_steps.length p.get_enabled_steps 0 0).2.2.2) := by
    rcases hr : runSteps env pid p.delay_between_steps
        (p.get_enabled_steps.getLastD {}) p.get_enabled_steps.length
        p.get_enabled_steps 0 0 with ⟨x, c', rest⟩
    rcases rest with ⟨f', evs⟩
    rw [hr] at e1 e2 e3
    simp only at e1 e2 e3
    subst e1
    rw [e2, e3]
    simp
  unfold execute_process
  rw [hex]
  simp only [Bool.false_eq_true, if_false]
  rw [hid]
  simp only
  rw [if_neg hpid]
  simp only [if_neg htot]
  rw [hrun]
  simp only
  refine ⟨trivial, ?_, ?_⟩
  · rw [complete_execution_record_ok env _ _ pid "Completed successfully"
      db.next_execution_id db.next_execution_id rfl hnz rfl]
    dsimp only
    rw [getRecord_insert_update db pid p.get_enabled_steps.length "completed"
      ((p.get_enabled_steps.filter (stepOk env pid)).length)
      ((p.get_enabled_steps.filter fun s => !stepOk env pid s).length)
      env.duration_ms none env.now_iso hfresh]
    simp
  · have hrow1 : (((add_execution_history db pid p.get_enabled_steps.length).1).processes.find?
        fun r => r.id = pid).isSome = true := hrow
    rw [complete_execution_emit env _ _ pid true "Completed successfully" hrow1]
    rw [← List.cons_append, List.getLast?_concat]

/-- Scenario 3 of the spec: step 2 is optional and its delivery fails. -/
def procOpt : Process :=
  { id := some 7, name := "P", steps := [stepA, stepBopt, stepC]
    delay_between_steps := 500 }

/-- C3 witness: the optional-failure scenario at concrete inputs
(completed 2, failed 1, status `completed`). -/
theorem C3_witness :
    (execute_process envBoomB ExecState.init dbExec (some procOpt)).1 = true ∧
    (getRecord (execute_process envBoomB ExecState.init dbExec (some procOpt)).2.2.1
        1).map (fun r => (r.status, r.completed_steps, r.failed_steps)) =
      some ("completed", 2, 1) ∧
    (execute_process envBoomB ExecState.init dbExec (some procOpt)).2.2.2.getLast? =
      some (Event.execution_completed 7 true "Completed successfully") := by
  have h := C3_optional_failures_still_complete envBoomB ExecState.init dbExec procOpt 7
    rfl rfl (by decide) (by decide) (by decide) (by decide) (by decide) (by decide)
  refine ⟨h.1, ?_, h.2.2⟩
  have h2 := h.2.1
  rw [show ((procOpt.get_enabled_steps.filter (stepOk envBoomB 7)).length) = 2 from rfl,
    show ((procOpt.get_enabled_steps.filter fun s => !stepOk envBoomB 7 s).length) = 1
      from rfl] at h2
  exact h2

/-! ## Trace-filter loop lemmas -/

lemma runSteps_started_filter (env : RunEnv) (pid : Int) (d : Int)
    (last : ProcessStep) (total : Nat) (l : List ProcessStep) :
    ∀ c f, ((runSteps env pid d last total l c f).2.2.2.filter isStepStartedEv) =
      (startedSteps env pid l).map
        (fun x => Event.step_started pid x.step_order x.get_display_label) := by
  induction l with
  | nil => intro c f; simp [runSteps, startedSteps]
  | cons s rest ih =>
      intro c f
      have hstep := (execute_step_filters env pid s).1
      by_cases hok : stepOk env pid s
      · have hok' : (execute_step env pid s).1 = true := hok
        simp only [runSteps, hok', if_pos, startedSteps, hok, Bool.true_or, if_true]
        rw [List.filter_append, List.filter_append, List.filter_append, hstep, ih]
        have hdel : (List.filter isStepStartedEv
            (if s ≠ last ∧ d > 0 then [Event.sleep_ms d] else [])) = [] := by
          split <;> simp [isStepStartedEv]
        rw [hdel]
        simp [isStepStartedEv]
      · have hok' : (execute_step env pid s).1 = false := by
          simpa [stepOk] using hok
        by_cases hopt : s.is_optional
        · simp only [runSteps, hok', Bool.false_eq_true, if_false, hopt,
            Bool.not_true, if_neg, startedSteps, Bool.or_true, if_true]
          rw [List.filter_append, List.filter_append, List.filter_append, hstep, ih]
          have hdel : (List.filter isStepStartedEv
              (if s ≠ last ∧ d > 0 then [Event.sleep_ms d] else [])) = [] := by
            split <;> simp [isStepStartedEv]
          rw [hdel]
          simp [isStepStartedEv]
        · have hopt' : s.is_optional = false := by simpa using hopt
          simp only [runSteps, hok', Bool.false_eq_true, if_false, hopt',
            Bool.not_false, if_pos, startedSteps, Bool.or_false, hok]
          rw [hstep]
          simp

lemma runSteps_sleep_filter (env : RunEnv) (pid : Int) (d : Int)
    (last : ProcessStep) (total : Nat) (l : List ProcessStep) :
    ∀ c f, ((runSteps env pid d last total l c f).2.2.2.filter isSleepEv) =
      ((nonAborting env pid l).filter fun x => decide (x ≠ last ∧ 0 < d)).map
        (fun _ => Event.sleep_ms d) := by
  induction l with
  | nil => intro c f; simp [runSteps, nonAborting]
  | cons s rest ih =>
      intro c f
      have hstep := (execute_step_filters env pid s).2
      by_cases hok : stepOk env pid s
      · have hok' : (execute_step env pid s).1 = true := hok
        simp only [runSteps, hok', if_pos, nonAborting, hok, Bool.true_or, if_true]
        rw [List.filter_append, List.filter_append, List.filter_append, hstep, ih]
        by_cases hc : s ≠ last ∧ 0 < d
        · rw [if_pos (by exact_mod_cast hc)]
          simp [isSleepEv, List.filter_cons, hc]
        · rw [if_neg (by exact_mod_cast hc)]
          simp [isSleepEv, List.filter_cons, hc]
      · have hok' : (execute_step env pid s).1 = false := by
          simpa [stepOk] using hok
        by_cases hopt : s.is_optional
        · simp only [runSteps, hok', Bool.false_eq_true, if_false, hopt,
            Bool.not_true, if_neg, nonAborting, Bool.or_true, if_true]
          rw [List.filter_append, List.filter_append, List.filter_append, hstep, ih]
          by_cases hc : s ≠ last ∧ 0 < d
          · rw [if_pos (by exact_mod_cast hc)]
            simp [isSleepEv, List.filter_cons, hc]
          · rw [if_neg (by exact_mod_cast hc)]
            simp [isSleepEv, List.filter_cons, hc]
        · have hopt' : s.is_optional = false := by simpa using hopt
          simp only [runSteps, hok', Bool.false_eq_true, if_false, hopt',
            Bool.not_false, if_pos, nonAborting, Bool.or_false, hok]
          rw [hstep]
          simp

lemma complete_execution_no_sleep (env : RunEnv) (st : ExecState) (db : SqlDB)
    (pid : Int) (success : Bool) (msg : String) :
    (complete_execution env st db pid success msg).2.filter isSleepEv = [] := by
  rcases complete_execution_events env st db pid success msg with h | h <;>
    rw [h] <;> simp [isSleepEv]

lemma complete_execution_no_started (env : RunEnv) (st : ExecState) (db : SqlDB)
    (pid : Int) (success : Bool) (msg : String) :
    (complete_execution env st db pid success msg).2.filter isStepStartedEv = [] := by
  rcases complete_execution_events env st db pid success msg with h | h <;>
    rw [h] <;> simp [isStepStartedEv]

/-! ## Claim C7 — inter-step delay -/

/-- C7 (amended): in a run that passes the guards, the trace contains a
sleep of `delay_between_steps` ms exactly after each processed enabled
step that does not abort the run and is not equal — as a Python
dataclass value — to the last enabled step; in particular no sleep
follows the last enabled step, and a non-positive delay never sleeps.
(The code compares the current step to `enabled_steps[-1]` by value,
so an earlier step that is field-for-field identical to the last one
gets no delay after it.) -/
theorem C7_sleep_between_steps (env : RunEnv) (st : ExecState) (db : SqlDB)
    (p : Process) (pid : Int)
    (hex : st.is_executing = false)
    (hid : p.id = some pid) (hpid : pid ≠ 0)
    (hne : p.get_enabled_steps ≠ []) :
    ((execute_process env st db (some p)).2.2.2.filter isSleepEv =
      ((nonAborting env pid p.get_enabled_steps).filter
        fun x => decide (x ≠ p.get_enabled_steps.getLastD {} ∧
          0 < p.delay_between_steps)).map
        (fun _ => Event.sleep_ms p.delay_between_steps)) ∧
    (p.delay_between_steps ≤ 0 →
      (execute_process env st db (some p)).2.2.2.filter isSleepEv = []) := by
  have htot : p.get_enabled_steps.length ≠ 0 := by
    simpa [List.length_eq_zero] using hne
  have hmain : (execute_process env st db (some p)).2.2.2.filter isSleepEv =
      ((nonAborting env pid p.get_enabled_steps).filter
        fun x => decide (x ≠ p.get_enabled_steps.getLastD {} ∧
          0 < p.delay_between_steps)).map
        (fun _ => Event.sleep_ms p.delay_between_steps) := by
    have hevs := runSteps_sleep_filter env pid p.delay_between_steps
      (p.get_enabled_steps.getLastD {}) p.get_enabled_steps.length
      p.get_enabled_steps 0 0
    unfold execute_process
    rw [hex]
    simp only [Bool.false_eq_true, if_false]
    rw [hid]
    simp only
    rw [if_neg hpid]
    simp only [if_neg htot]
    rcases hrun : runSteps env pid p.delay_between_steps
        (p.get_enabled_steps.getLastD {}) p.get_enabled_steps.length
        p.get_enabled_steps 0 0 with ⟨exit, c, rest2⟩
    rcases rest2 with ⟨f, evs⟩
    rw [hrun] at hevs
    simp only at hevs
    cases exit with
    | finished =>
        simp only
        rw [List.filter_cons_of_neg (by simp [isSleepEv]), List.filter_append, hevs,
          complete_execution_no_sleep]
        simp
    | aborted ord msg =>
        simp only
        rw [List.filter_cons_of_neg (by simp [isSleepEv]), List.filter_append, hevs,
          complete_execution_no_sleep]
        simp
  refine ⟨hmain, fun hd => ?_⟩
  rw [hmain]
  have : ((nonAborting env pid p.get_enabled_steps).filter
      fun x => decide (x ≠ p.get_enabled_steps.getLastD {} ∧
        0 < p.delay_between_steps)) = [] := by
    rw [List.filter_eq_nil_iff]
    intro x _
    simp only [decide_eq_true_eq, not_and]
    intro _
    omega
  rw [this]
  rfl

/-- Two field-for-field identical enabled steps. -/
def procDup : Process :=
  { id := some 7, name := "P", steps := [stepA, stepA], delay_between_steps := 500 }

/-- C7 counterexample: with a positive delay and two identical enabled
steps that both succeed, the claim predicts a sleep after the first
(non-last) step, but the run sleeps zero times: the code's value
comparison `step != enabled_steps[-1]` sees the first step as the last
one. -/
theorem C7_duplicate_step_cex :
    ((execute_process envBoomB ExecState.init dbExec (some procDup)).2.2.2.filter
      isSleepEv = []) ∧
    procDup.delay_between_steps = 500 ∧
    procDup.get_enabled_steps.length = 2 ∧
    (∀ s ∈ procDup.get_enabled_steps, stepOk envBoomB 7 s = true) := by decide

/-- C7 witness: the three-step optional-failure scenario sleeps exactly
twice — after steps 1 and 2, never after the last. -/
theorem C7_sleep_witness :
    (execute_process envBoomB ExecState.init dbExec (some procOpt)).2.2.2.filter
      isSleepEv = [Event.sleep_ms 500, Event.sleep_ms 500] := by
  have h := (C7_sleep_between_steps envBoomB ExecState.init dbExec procOpt 7
    rfl rfl (by decide) (by decide)).1
  exact h.trans (by decide)

/-! ## Claim C1 — abort on a required step failure -/

lemma startedSteps_append (env : RunEnv) (pid : Int) (l₁ : List ProcessStep)
    (s : ProcessStep) (l₂ : List ProcessStep)
    (hpassed : ∀ x ∈ l₁, x.is_optional = true ∨ stepOk env pid x = true)
    (hfail : stepOk env pid s = false) (hreq : s.is_optional = false) :
    startedSteps env pid (l₁ ++ s :: l₂) = l₁ ++ [s] := by
  induction l₁ with
  | nil => simp [startedSteps, hfail, hreq]
  | cons x rest ih =>
      have hx := hpassed x (List.mem_cons_self x rest)
      have hrest : ∀ y ∈ rest, y.is_optional = true ∨ stepOk env pid y = true :=
        fun y hy => hpassed y (List.mem_cons_of_mem x hy)
      rcases hx with h | h <;>
        simp [startedSteps, h, ih hrest]

/-- C1 (amended): when the enabled steps split as `l₁ ++ s :: l₂` with
every step of `l₁` optional or successful and `s` a failing required
step, `execute_process` aborts at `s`: it returns `False`, the record's
terminal status is `failed`, `completed_steps` counts the successful
steps before the failure, `failed_steps` equals one plus the failed
(optional) steps before the failure, the terminal message is
"Failed at step {step_order}: {error text}" for `s`, and no step after
`s` is started. -/
theorem C1_abort_on_required_failure (env : RunEnv) (st : ExecState) (db : SqlDB)
    (p : Process) (pid : Int) (l₁ : List ProcessStep) (s : ProcessStep)
    (l₂ : List ProcessStep)
    (hex : st.is_executing = false)
    (hid : p.id = some pid) (hpid : pid ≠ 0)
    (hsplit : p.get_enabled_steps = l₁ ++ s :: l₂)
    (hpassed : ∀ x ∈ l₁, x.is_optional = true ∨ stepOk env pid x = true)
    (hfail : stepOk env pid s = false) (hreq : s.is_optional = false)
    (hfresh : ∀ r ∈ db.history, r.id ≠ db.next_execution_id)
    (hnz : db.next_execution_id ≠ 0)
    (hrow : (db.processes.find? fun r => r.id = pid).isSome) :
    (execute_process env st db (some p)).1 = false ∧
    (getRecord (execute_process env st db (some p)).2.2.1
        db.next_execution_id).map
        (fun r => (r.status, r.completed_steps, r.failed_steps, r.error_message)) =
      some ("failed",
        (l₁.filter (stepOk env pid)).length,
        (l₁.filter fun x => !stepOk env pid x).length + 1,
        some ("Failed at step " ++ toString s.step_order ++ ": "
          ++ (execute_step env pid s).2.1)) ∧
    (execute_process env st db (some p)).2.2.2.getLast? =
      some (Event.execution_completed pid false
        ("Failed at step " ++ toString s.step_order ++ ": "
          ++ (execute_step env pid s).2.1)) ∧
    ((execute_process env st db (some p)).2.2.2.filter isStepStartedEv) =
      (l₁ ++ [s]).map
        (fun x => Event.step_started pid x.step_order x.get_display_label) := by
  have hne : p.get_enabled_steps ≠ [] := by
    rw [hsplit]; simp
  have htot : p.get_enabled_steps.length ≠ 0 := by
    simpa [List.length_eq_zero] using hne
  obtain ⟨e1, e2, e3⟩ := by
    have h := runSteps_abort env pid p.delay_between_steps
      (p.get_enabled_steps.getLastD {}) p.get_enabled_steps.length l₁ s l₂ 0 0
      hpassed hfail hreq
    rw [← hsplit] at h
    exact h
  have hstarted := by
    have h := runSteps_started_filter env pid p.delay_between_steps
      (p.get_enabled_steps.getLastD {}) p.get_enabled_steps.length
      p.get_enabled_steps 0 0
    rw [hsplit, startedSteps_append env pid l₁ s l₂ hpassed hfail hreq,
      ← hsplit] at h
    exact h
  have hrun : runSteps env pid p.delay_between_steps
      (p.get_enabled_steps.getLastD {}) p.get_enabled_steps.length
      p.get_enabled_steps 0 0 =
      (LoopExit.aborted s.step_order (execute_step env pid s).2.1,
       (l₁.filter (stepOk env pid)).length,
       (l₁.filter fun x => !stepOk env pid x).length + 1,
       (runSteps env pid p.delay_between_steps (p.get_enabled_steps.getLastD {})
         p.get_enabled_steps.length p.get_enabled_steps 0 0).2.2.2) := by
    rcases hr : runSteps env pid p.delay_between_steps
        (p.get_enabled_steps.getLastD {}) p.get_enabled_steps.length
        p.get_enabled_steps 0 0 with ⟨x, c', rest2⟩
    rcases rest2 with ⟨f', evs⟩
    rw [hr] at e1 e2 e3
    simp only at e1 e2 e3
    subst e1
    rw [e2, e3]
    simp
  rw [hrun] at hstarted
  simp only at hstarted
  unfold execute_process
  rw [hex]
  simp only [Bool.false_eq_true, if_false]
  rw [hid]
  simp only
  rw [if_neg hpid]
  simp only [if_neg htot]
  rw [hrun]
  simp only
  have hrow1 : (((add_execution_history db pid p.get_enabled_steps.length).1).processes.find?
      fun r => r.id = pid).isSome = true := hrow
  refine ⟨trivial, ?_, ?_, ?_⟩
  · rw [complete_execution_record_fail env _ _ pid
      ("Failed at step " ++ toString s.step_order ++ ": " ++ (execute_step env pid s).2.1)
      db.next_execution_id db.next_execution_id rfl hnz rfl]
    dsimp only
    rw [getRecord_insert_update db pid p.get_enabled_steps.length "failed"
      ((l₁.filter (stepOk env pid)).length)
      ((l₁.filter fun x => !stepOk env pid x).length + 1)
      env.duration_ms
      (some ("Failed at step " ++ toString s.step_order ++ ": "
        ++ (execute_step env pid s).2.1))
      env.now_iso hfresh]
    simp
  · rw [complete_execution_emit env _ _ pid false
      ("Failed at step " ++ toString s.step_order ++ ": "
        ++ (execute_step env pid s).2.1) hrow1]
    rw [← List.cons_append, List.getLast?_concat]
  · rw [List.filter_cons_of_neg (by simp [isStepStartedEv]), List.filter_append,
      hstarted, complete_execution_no_started]
    simp

/-- A clipboard that fails on every content. -/
def envBoomAll : RunEnv :=
  { clipboard := some fun _ => Except.error "boom"
    duration_ms := 42, now_iso := "t1" }

/-- An optional variant of step 1. -/
def stepAopt : ProcessStep :=
  { item_id := 1, step_order := 1, item_label := "A", item_content := "a"
    is_optional := true }

/-- An optional failing step followed by a required failing step. -/
def procOptThenReq : Process :=
  { id := some 7, name := "P", steps := [stepAopt, stepB], delay_between_steps := 0 }

/-- C1 counterexample: the enabled steps contain a required step whose
execution fails (step 2), so the claim applies and predicts
`failed_steps = 1`; but the optional step 1 also failed, and the
record's `failed_steps` is 2. -/
theorem C1_failed_steps_cex :
    (execute_process envBoomAll ExecState.init dbExec (some procOptThenReq)).1 = false ∧
    (getRecord (execute_process envBoomAll ExecState.init dbExec
        (some procOptThenReq)).2.2.1 1).map (fun r => (r.status, r.failed_steps)) =
      some ("failed", 2) ∧
    (2 : Nat) ≠ 1 ∧
    (procOptThenReq.get_enabled_steps.map fun s => (s.is_optional, stepOk envBoomAll 7 s)) =
      [(true, false), (false, false)] := by decide

/-- Scenario 2 of the spec: three required steps, the second fails. -/
def procReq : Process :=
  { id := some 7, name := "P", steps := [stepA, stepB, stepC], delay_between_steps := 0 }

/-- C1 witness: the three-required-steps scenario at concrete inputs
(abort at step 2, completed 1, failed 1, step 3 never started). -/
theorem C1_abort_witness :
    (execute_process envBoomB ExecState.init dbExec (some procReq)).1 = false ∧
    (getRecord (execute_process envBoomB ExecState.init dbExec (some procReq)).2.2.1
        1).map (fun r => (r.status, r.completed_steps, r.failed_steps, r.error_message)) =
      some ("failed", 1, 1,
        some "Failed at step 2: Failed to copy to clipboard: boom") ∧
    (execute_process envBoomB ExecState.init dbExec (some procReq)).2.2.2.getLast? =
      some (Event.execution_completed 7 false
        "Failed at step 2: Failed to copy to clipboard: boom") ∧
    ((execute_process envBoomB ExecState.init dbExec (some procReq)).2.2.2.filter
      isStepStartedEv) =
      [Event.step_started 7 1 "A", Event.step_started 7 2 "B"] := by
  have h := C1_abort_on_required_failure envBoomB ExecState.init dbExec procReq 7
    [stepA] stepB [stepC] rfl rfl (by decide) rfl (by decide) (by decide) (by decide)
    (by decide) (by decide) (by decide)
  exact ⟨h.1, h.2.1.trans (by decide), h.2.2.1.trans (by decide),
    h.2.2.2.trans (by decide)⟩

/-! ## Claim C5 — step_order renormalization -/

/-- Position of the first occurrence of `i` in `ids`. -/
def idxIn : List Int → Int → Option Nat
  | [], _ => none
  | x :: rest, i => if x = i then some 0 else (idxIn rest i).map (· + 1)

lemma idxIn_isSome_of_mem {ids : List Int} {i : Int} (h : i ∈ ids) :
    ∃ j, idxIn ids i = some j := by
  induction ids with
  | nil => cases h
  | cons x rest ih =>
      by_cases hx : x = i
      · exact ⟨0, by simp [idxIn, hx]⟩
      · rcases List.mem_cons.mp h with rfl | hmem
        · exact absurd rfl hx
        · obtain ⟨j, hj⟩ := ih hmem
          exact ⟨j + 1, by simp [idxIn, hx, hj]⟩

lemma idxIn_lt_length {ids : List Int} {i : Int} {j : Nat}
    (h : idxIn ids i = some j) : j < ids.length := by
  induction ids generalizing j with
  | nil => exact absurd h (by simp [idxIn])
  | cons x rest ih =>
      rw [idxIn] at h
      by_cases hx : x = i
      · rw [if_pos hx] at h
        injection h with h
        subst h
        simp
      · rw [if_neg hx] at h
        rcases hmap : idxIn rest i with _ | j' <;> rw [hmap] at h
        · exact absurd h (by simp)
        · simp at h
          subst h
          have := ih hmap
          simp only [List.length_cons]
          omega

lemma idxIn_get {ids : List Int} {i : Int} {j : Nat}
    (h : idxIn ids i = some j) (hj : j < ids.length) :
    ids.get ⟨j, hj⟩ = i := by
  induction ids generalizing j with
  | nil => exact absurd h (by simp [idxIn])
  | cons x rest ih =>
      rw [idxIn] at h
      by_cases hx : x = i
      · rw [if_pos hx] at h
        injection h with h
        subst h
        simpa using hx
      · rw [if_neg hx] at h
        rcases hmap : idxIn rest i with _ | j' <;> rw [hmap] at h
        · exact absurd h (by simp)
        · simp at h
          subst h
          have hj' : j' < rest.length := idxIn_lt_length hmap
          simpa using ih hmap hj'

lemma idxIn_of_get {ids : List Int} (hnodup : ids.Nodup) {j : Nat}
    (hj : j < ids.length) : idxIn ids (ids.get ⟨j, hj⟩) = some j := by
  induction ids generalizing j with
  | nil => simp at hj
  | cons x rest ih =>
      rcases List.nodup_cons.mp hnodup with ⟨hx, hrest⟩
      cases j with
      | zero => simp [idxIn]
      | succ j' =>
          have hj' : j' < rest.length := by simpa using hj
          have hne : x ≠ rest.get ⟨j', hj'⟩ := by
            intro hh
            exact hx (hh ▸ List.get_mem rest j' hj')
          simp only [List.get_cons_succ, idxIn]
          rw [if_neg hne, ih hrest hj']
          rfl

/-- The effect of the whole reorder UPDATE loop on one `process_items`
row: a row of the process whose id occurs in the list at position `j`
gets `step_order := k + j`; every other row is untouched. -/
def renumberRow (pid : Int) (ids : List Int) (k : Nat) (r : StepRow) : StepRow :=
  if r.process_id = pid then
    match idxIn ids r.id with
    | some j => { r with step_order := ((k + j : Nat) : Int) }
    | none => r
  else r

lemma renumberRow_nil (pid : Int) (k : Nat) (r : StepRow) :
    renumberRow pid [] k r = r := by
  unfold renumberRow idxIn
  split <;> rfl

lemma reorderLoop_eq_map (pid : Int) (ids : List Int) (hnodup : ids.Nodup) :
    ∀ (tbl : List StepRow) (k : Nat),
      reorderLoop pid tbl ids k = tbl.map (renumberRow pid ids k) := by
  induction ids with
  | nil =>
      intro tbl k
      unfold reorderLoop
      symm
      calc tbl.map (renumberRow pid [] k)
          = tbl.map (fun r => r) :=
            List.map_congr_left fun r _ => renumberRow_nil pid k r
        _ = tbl := by simp
  | cons sid rest ih =>
      intro tbl k
      rcases List.nodup_cons.mp hnodup with ⟨hsid, hrest⟩
      unfold reorderLoop
      rw [ih hrest, List.map_map]
      refine List.map_congr_left fun r _ => ?_
      simp only [Function.comp_apply]
      by_cases hp : r.process_id = pid
      · by_cases hid : r.id = sid
        · have hnotin : idxIn rest r.id = none := by
            rcases hmem : idxIn rest r.id with _ | j
            · rfl
            · exfalso
              have hj := idxIn_lt_length hmem
              have hget := idxIn_get hmem hj
              rw [hid] at hget
              exact hsid (hget ▸ List.get_mem rest j hj)
          rw [if_pos ⟨hid, hp⟩]
          simp only [renumberRow]
          rw [if_pos hp, if_pos hp]
          have h0 : idxIn (sid :: rest) r.id = some 0 := by
            rw [idxIn, if_pos hid.symm]
          rw [hnotin, h0]
          simp
        · rw [if_neg (by simp [hid])]
          simp only [renumberRow]
          rw [if_pos hp, if_pos hp]
          have hcons : idxIn (sid :: rest) r.id = (idxIn rest r.id).map (· + 1) := by
            rw [idxIn, if_neg fun hh => hid hh.symm]
          rw [hcons]
          rcases hmem : idxIn rest r.id with _ | j
          · rfl
          · simp only [Option.map]
            have hk : ((k + 1 + j : Nat) : Int) = ((k + (j + 1) : Nat) : Int) := by
              omega
            simp [hk]
      · rw [if_neg (by simp [hp])]
        simp only [renumberRow]
        rw [if_neg hp, if_neg hp]

lemma renumberRow_process_id (pid : Int) (ids : List Int) (k : Nat) (r : StepRow) :
    (renumberRow pid ids k r).process_id = r.process_id := by
  unfold renumberRow
  split
  · split <;> rfl
  · rfl

/-- `renumberRow` transported through the JOIN. -/
def renumberJoin (pid : Int) (ids : List Int) (k : Nat) (x : StepJoin) : StepJoin :=
  if x.process_id = pid then
    match idxIn ids x.id with
    | some j => { x with step_order := ((k + j : Nat) : Int) }
    | none => x
  else x

lemma joinRow_renumber (db : SqlDB) (pid : Int) (ids : List Int) (k : Nat)
    (r : StepRow) :
    joinRow db (renumberRow pid ids k r) =
      (joinRow db r).map (renumberJoin pid ids k) := by
  by_cases hp : r.process_id = pid
  · rcases hidx : idxIn ids r.id with _ | j
    · have hren : renumberRow pid ids k r = r := by
        unfold renumberRow
        rw [if_pos hp, hidx]
      rw [hren]
      unfold joinRow
      rcases hf : db.items.find? fun it => it.id = r.item_id with _ | it <;> rw [hf]
      · rfl
      · simp [renumberJoin, hp, hidx]
    · have hren : renumberRow pid ids k r =
          { r with step_order := ((k + j : Nat) : Int) } := by
        unfold renumberRow
        rw [if_pos hp, hidx]
      rw [hren]
      unfold joinRow
      dsimp only
      rcases hf : db.items.find? fun it => it.id = r.item_id with _ | it <;> rw [hf]
      · rfl
      · simp [renumberJoin, hp, hidx]
  · have hren : renumberRow pid ids k r = r := by
      unfold renumberRow
      rw [if_neg hp]
    rw [hren]
    unfold joinRow
    rcases hf : db.items.find? fun it => it.id = r.item_id with _ | it <;> rw [hf]
    · rfl
    · simp [renumberJoin, hp]

lemma filterMap_total_map {α β γ : Type _} (f : α → Option β) (g : β → γ)
    (h : α → γ) (l : List α)
    (htotal : ∀ a ∈ l, ∃ b, f a = some b ∧ g b = h a) :
    (l.filterMap f).map g = l.map h := by
  induction l with
  | nil => rfl
  | cons a t ih =>
      obtain ⟨b, hb, hgb⟩ := htotal a (List.mem_cons_self a t)
      rw [List.filterMap_cons, hb, List.map_cons, List.map_cons, hgb,
        ih fun x hx => htotal x (List.mem_cons_of_mem a hx)]

lemma joinRow_proj {db : SqlDB} {r : StepRow} {x : StepJoin}
    (h : joinRow db r = some x) :
    x.id = r.id ∧ x.process_id = r.process_id ∧ x.step_order = r.step_order := by
  unfold joinRow at h
  rcases hf : db.items.find? fun it => it.id = r.item_id with _ | it <;>
    rw [hf] at h
  · exact absurd h (by simp)
  · simp only [Option.map] at h
    injection h with h
    subst h
    exact ⟨rfl, rfl, rfl⟩

lemma renumberJoin_id (pid : Int) (ids : List Int) (k : Nat) (x : StepJoin) :
    (renumberJoin pid ids k x).id = x.id := by
  unfold renumberJoin
  split
  · split <;> rfl
  · rfl

/-- The new `step_order` of the row with id `i`, read off the reorder
list. -/
def orderOfIdx (ids : List Int) (i : Int) : Int :=
  match idxIn ids i with
  | some j => ((1 + j : Nat) : Int)
  | none => 0

lemma reorder_spec (db : SqlDB) (pid : Int) (ids : List Int)
    (hpk : (db.process_items.map (·.id)).Nodup)
    (hFK : ∀ r ∈ db.process_items, r.process_id = pid →
      (db.items.find? fun it => it.id = r.item_id).isSome)
    (hperm : ids.Perm
      ((db.process_items.filter fun r => r.process_id == pid).map (·.id))) :
    (get_process_steps (reorder_process_steps db pid ids) pid).map (·.step_order) =
      (List.range' 1 ids.length).map Int.ofNat ∧
    (get_process_steps (reorder_process_steps db pid ids) pid).map (·.id) = ids := by
  have hsub : ((db.process_items.filter fun r => r.process_id == pid).map
        (·.id)).Sublist (db.process_items.map (·.id)) :=
    (List.filter_sublist db.process_items).map _
  have hFnodup : ((db.process_items.filter fun r => r.process_id == pid).map
      (·.id)).Nodup := List.Nodup.sublist hsub hpk
  have hids_nodup : ids.Nodup := hperm.nodup_iff.mpr hFnodup
  have htbl : (reorder_process_steps db pid ids).process_items =
      db.process_items.map (renumberRow pid ids 1) := by
    unfold reorder_process_steps
    exact reorderLoop_eq_map pid ids hids_nodup db.process_items 1
  have hjoin : joinRow (reorder_process_steps db pid ids) = joinRow db := rfl
  have hpresort : (((reorder_process_steps db pid ids).process_items.filter
        fun r => r.process_id == pid).filterMap
        (joinRow (reorder_process_steps db pid ids))) =
      (((db.process_items.filter fun r => r.process_id == pid).filterMap
        (joinRow db)).map (renumberJoin pid ids 1)) := by
    rw [hjoin, htbl, List.filter_map]
    have hfc : ((fun r : StepRow => r.process_id == pid) ∘ renumberRow pid ids 1) =
        fun r : StepRow => r.process_id == pid := by
      funext r
      simp [Function.comp, renumberRow_process_id]
    rw [hfc, List.filterMap_map]
    rw [show (joinRow db ∘ renumberRow pid ids 1) =
        fun r => (joinRow db r).map (renumberJoin pid ids 1) from
      funext fun r => joinRow_renumber db pid ids 1 r]
    rw [← List.map_filterMap]
  have hFTotal : ∀ r ∈ db.process_items.filter fun r => r.process_id == pid,
      ∃ x, joinRow db r = some x ∧ x.id = r.id := by
    intro r hr
    have hmem := List.mem_of_mem_filter hr
    have hpid : r.process_id = pid := eq_of_beq (List.mem_filter.mp hr).2
    have hsome := hFK r hmem hpid
    obtain ⟨it, hit⟩ := Option.isSome_iff_exists.mp hsome
    rcases hjr : joinRow db r with _ | x
    · exfalso
      unfold joinRow at hjr
      rw [hit] at hjr
      exact absurd hjr (by simp)
    · exact ⟨x, rfl, (joinRow_proj hjr).1⟩
  have hJid : ((db.process_items.filter fun r => r.process_id == pid).filterMap
      (joinRow db)).map (·.id) =
      (db.process_items.filter fun r => r.process_id == pid).map (·.id) :=
    filterMap_total_map _ _ _ _ hFTotal
  have hJ'id : ((((db.process_items.filter fun r => r.process_id == pid).filterMap
      (joinRow db)).map (renumberJoin pid ids 1)).map (·.id)) =
      (db.process_items.filter fun r => r.process_id == pid).map (·.id) := by
    rw [List.map_map,
      show ((fun x : StepJoin => x.id) ∘ renumberJoin pid ids 1) =
        fun x : StepJoin => x.id from funext fun x => renumberJoin_id pid ids 1 x]
    exact hJid
  have hinv : ∀ x ∈ ((db.process_items.filter fun r => r.process_id == pid).filterMap
      (joinRow db)).map (renumberJoin pid ids 1),
      x.process_id = pid ∧ ∃ j, idxIn ids x.id = some j ∧
        x.step_order = ((1 + j : Nat) : Int) := by
    intro x hx
    obtain ⟨y, hy, hxy⟩ := List.mem_map.mp hx
    obtain ⟨r, hrF, hjr⟩ := List.mem_filterMap.mp hy
    obtain ⟨hidy, hpidy, _⟩ := joinRow_proj hjr
    have hpidr : r.process_id = pid := eq_of_beq (List.mem_filter.mp hrF).2
    have hyid_mem : y.id ∈ ids := by
      rw [hidy]
      exact hperm.mem_iff.mpr (List.mem_map.mpr ⟨r, hrF, rfl⟩)
    obtain ⟨j, hj⟩ := idxIn_isSome_of_mem hyid_mem
    have hypid : y.process_id = pid := by rw [hpidy, hpidr]
    subst hxy
    unfold renumberJoin
    rw [if_pos hypid, hj]
    exact ⟨hypid, j, hj, rfl⟩
  have hRval : get_process_steps (reorder_process_steps db pid ids) pid =
      sortBy (fun a b => decide (a.step_order ≤ b.step_order))
        (((db.process_items.filter fun r => r.process_id == pid).filterMap
          (joinRow db)).map (renumberJoin pid ids 1)) := by
    unfold get_process_steps
    rw [hpresort]
  have hRperm : (get_process_steps (reorder_process_steps db pid ids) pid).Perm
      (((db.process_items.filter fun r => r.process_id == pid).filterMap
        (joinRow db)).map (renumberJoin pid ids 1)) := by
    rw [hRval]
    exact sortBy_perm _ _
  have hRsorted : (get_process_steps (reorder_process_steps db pid ids) pid).Pairwise
      (fun a b => a.step_order ≤ b.step_order) := by
    rw [hRval]
    have hp := @pairwise_sortBy StepJoin
      (fun a b : StepJoin => decide (a.step_order ≤ b.step_order))
      (fun a b c hab hbc =>
        decide_eq_true (le_trans (of_decide_eq_true hab) (of_decide_eq_true hbc)))
      (fun a b => by
        rcases le_total a.step_order b.step_order with h | h <;> simp [h])
      (((db.process_items.filter fun r => r.process_id == pid).filterMap
        (joinRow db)).map (renumberJoin pid ids 1))
    exact hp.imp fun h => of_decide_eq_true h
  have hRinv : ∀ x ∈ get_process_steps (reorder_process_steps db pid ids) pid,
      x.process_id = pid ∧ ∃ j, idxIn ids x.id = some j ∧
        x.step_order = ((1 + j : Nat) : Int) :=
    fun x hx => hinv x (hRperm.mem_iff.mp hx)
  have hRidperm : ((get_process_steps (reorder_process_steps db pid ids) pid).map
      (·.id)).Perm ids := by
    have h1 := hRperm.map (fun x : StepJoin => x.id)
    rw [hJ'id] at h1
    exact h1.trans hperm.symm
  have hlenR : (get_process_steps (reorder_process_steps db pid ids) pid).length =
      ids.length := by
    have := hRidperm.length_eq
    simpa using this
  have hcomp : (get_process_steps (reorder_process_steps db pid ids) pid).map
      (·.step_order) =
      ((get_process_steps (reorder_process_steps db pid ids) pid).map (·.id)).map
        (orderOfIdx ids) := by
    rw [List.map_map]
    refine List.map_congr_left fun x hx => ?_
    obtain ⟨_, j, hj, ho⟩ := hRinv x hx
    simp [Function.comp, orderOfIdx, hj, ho]
  have hidsmap : ids.map (orderOfIdx ids) =
      (List.range' 1 ids.length).map Int.ofNat := by
    refine List.ext_get (by simp) fun n h1 h2 => ?_
    simp only [List.get_map]
    have hn : n < ids.length := by simpa using h1
    rw [show ids.get ⟨n, by simpa using h1⟩ = ids.get ⟨n, hn⟩ from rfl]
    unfold orderOfIdx
    rw [idxIn_of_get hids_nodup hn]
    have : (List.range' 1 ids.length).get ⟨n, by simpa using h2⟩ = 1 + n := by
      simpa using List.getElem_range' n (by simpa using h2)
    rw [this]
    simp [Int.ofNat_eq_coe]
  have hordperm : ((get_process_steps (reorder_process_steps db pid ids) pid).map
      (·.step_order)).Perm ((List.range' 1 ids.length).map Int.ofNat) := by
    rw [hcomp, ← hidsmap]
    exact hRidperm.map _
  have hsorted1 : ((get_process_steps (reorder_process_steps db pid ids) pid).map
      (·.step_order)).Pairwise (· ≤ ·) :=
    List.Pairwise.map _ (fun a b h => h) hRsorted
  have hsorted2 : ((List.range' 1 ids.length).map
      Int.ofNat).Pairwise ((· ≤ ·) : Int → Int → Prop) :=
    List.Pairwise.map _
      (fun a b (h : a < b) => by
        simp only [Int.ofNat_eq_coe]
        exact_mod_cast Nat.le_of_lt h)
      (List.pairwise_lt_range' 1 ids.length)
  have horders : (get_process_steps (reorder_process_steps db pid ids) pid).map
      (·.step_order) = (List.range' 1 ids.length).map Int.ofNat :=
    List.eq_of_perm_of_sorted hordperm hsorted1 hsorted2
  refine ⟨horders, ?_⟩
  refine List.ext_get (by simpa using hlenR) fun n h1 h2 => ?_
  have hn : n < (get_process_steps (reorder_process_steps db pid ids) pid).length := by
    simpa using h1
  have hxmem := List.get_mem (get_process_steps (reorder_process_steps db pid ids) pid)
    n hn
  obtain ⟨_, j, hj, ho⟩ := hRinv _ hxmem
  have hOn : ((get_process_steps (reorder_process_steps db pid ids) pid).get
      ⟨n, hn⟩).step_order = ((1 + n : Nat) : Int) := by
    have hrange : n < (List.range' 1 ids.length).length := by simpa using h2
    have hg := congrArg (fun l : List Int => l[n]?) horders
    simp only [List.getElem?_map, List.getElem?_eq_getElem hn,
      List.getElem?_eq_getElem hrange, Option.map_some'] at hg
    rw [List.getElem_range' n hrange] at hg
    rw [List.get_eq_getElem]
    rw [show ((get_process_steps (reorder_process_steps db pid ids) pid)[n] :
        StepJoin) = (get_process_steps (reorder_process_steps db pid ids) pid)[n]
      from rfl]
    injection hg with hg
    rw [hg]
    simp [Int.ofNat_eq_coe]
  have hj_eq : j = n := by
    rw [ho] at hOn
    have : (1 + j : Nat) = (1 + n : Nat) := by exact_mod_cast hOn
    omega
  subst hj_eq
  have hjlt : j < ids.length := idxIn_lt_length hj
  have hget := idxIn_get hj hjlt
  simp only [List.get_map]
  rw [show ids.get ⟨j, by simpa using h2⟩ = ids.get ⟨j, hjlt⟩ from rfl, hget]

lemma get_steps_id_perm (db : SqlDB) (pid : Int)
    (hFK : ∀ r ∈ db.process_items, r.process_id = pid →
      (db.items.find? fun it => it.id = r.item_id).isSome) :
    ((get_process_steps db pid).map (·.id)).Perm
      ((db.process_items.filter fun r => r.process_id == pid).map (·.id)) := by
  have hFTotal : ∀ r ∈ db.process_items.filter fun r => r.process_id == pid,
      ∃ x, joinRow db r = some x ∧ x.id = r.id := by
    intro r hr
    have hmem := List.mem_of_mem_filter hr
    have hpid : r.process_id = pid := eq_of_beq (List.mem_filter.mp hr).2
    obtain ⟨it, hit⟩ := Option.isSome_iff_exists.mp (hFK r hmem hpid)
    rcases hjr : joinRow db r with _ | x
    · exfalso
      unfold joinRow at hjr
      rw [hit] at hjr
      exact absurd hjr (by simp)
    · exact ⟨x, rfl, (joinRow_proj hjr).1⟩
  have hJid := filterMap_total_map (joinRow db) (fun x : StepJoin => x.id)
    (fun r : StepRow => r.id) _ hFTotal
  unfold get_process_steps
  have hp := (sortBy_perm (fun a b : StepJoin => decide (a.step_order ≤ b.step_order))
    ((db.process_items.filter fun r => r.process_id == pid).filterMap
      (joinRow db))).map (fun x : StepJoin => x.id)
  rw [hJid] at hp
  exact hp

/-- C5: `remove_step` renormalizes the surviving steps of the process
to the contiguous orders `1..M`, preserving their relative order; and
`reorder_process_steps` applied to a permutation of the process's step
ids assigns order `position + 1`, so that listing the steps by
`step_order` afterwards yields exactly the given ids with orders
`1..M`. -/
theorem C5_step_orders_contiguous (db : SqlDB) (pid sid : Int) (ids : List Int)
    (hpk : (db.process_items.map (·.id)).Nodup)
    (hFK : ∀ r ∈ db.process_items, r.process_id = pid →
      (db.items.find? fun it => it.id = r.item_id).isSome) :
    ((get_process_steps (remove_step db pid sid) pid).map (·.step_order) =
      (List.range' 1 (get_process_steps (delete_process_step db sid) pid).length).map
        Int.ofNat ∧
     (get_process_steps (remove_step db pid sid) pid).map (·.id) =
      (get_process_steps (delete_process_step db sid) pid).map (·.id)) ∧
    (ids.Perm ((db.process_items.filter fun r => r.process_id == pid).map (·.id)) →
      (get_process_steps (reorder_process_steps db pid ids) pid).map (·.step_order) =
        (List.range' 1 ids.length).map Int.ofNat ∧
      (get_process_steps (reorder_process_steps db pid ids) pid).map (·.id) = ids) := by
  have hpk1 : ((delete_process_step db sid).process_items.map (·.id)).Nodup :=
    List.Nodup.sublist ((List.filter_sublist db.process_items).map _) hpk
  have hFK1 : ∀ r ∈ (delete_process_step db sid).process_items, r.process_id = pid →
      ((delete_process_step db sid).items.find? fun it => it.id = r.item_id).isSome :=
    fun r hr hp => hFK r (List.mem_of_mem_filter hr) hp
  have hperm1 := get_steps_id_perm (delete_process_step db sid) pid hFK1
  constructor
  · have hrs : remove_step db pid sid =
        if ((get_process_steps (delete_process_step db sid) pid).map
            (·.id)).isEmpty then
          delete_process_step db sid
        else
          reorder_process_steps (delete_process_step db sid) pid
            ((get_process_steps (delete_process_step db sid) pid).map (·.id)) := rfl
    by_cases hnil : ((get_process_steps (delete_process_step db sid) pid).map
        (·.id)).isEmpty
    · rw [hrs, if_pos hnil]
      have hbase : get_process_steps (delete_process_step db sid) pid = [] := by
        have := List.isEmpty_iff.mp hnil
        exact List.map_eq_nil_iff.mp this
      rw [hbase]
      simp
    · rw [hrs, if_neg hnil]
      obtain ⟨h1, h2⟩ := reorder_spec (delete_process_step db sid) pid
        ((get_process_steps (delete_process_step db sid) pid).map (·.id))
        hpk1 hFK1 hperm1
      refine ⟨?_, h2⟩
      rw [h1]
      simp
  · intro hperm
    exact reorder_spec db pid ids hpk hFK hperm

/-- A three-step process table (process 5, step ids 11/12/13 with item
ids 1/2/3 and orders 1/2/3). -/
def dbSteps : SqlDB :=
  { items :=
      [{ id := 1, label := "A", content := "a", typ := "TEXT", icon := none
         is_sensitive := 0 },
       { id := 2, label := "B", content := "b", typ := "TEXT", icon := none
         is_sensitive := 0 },
       { id := 3, label := "C", content := "c", typ := "TEXT", icon := none
         is_sensitive := 0 }]
    process_items :=
      [{ id := 11, process_id := 5, item_id := 1, step_order := 1
         custom_label := none, is_optional := 0, is_enabled := 1
         wait_for_confirmation := 0, notes := none, group_name := none },
       { id := 12, process_id := 5, item_id := 2, step_order := 2
         custom_label := none, is_optional := 0, is_enabled := 1
         wait_for_confirmation := 0, notes := none, group_name := none },
       { id := 13, process_id := 5, item_id := 3, step_order := 3
         custom_label := none, is_optional := 0, is_enabled := 1
         wait_for_confirmation := 0, notes := none, group_name := none }]
    processes := [], history := [], next_execution_id := 1 }

/-- C5 witness: removing step 12 renormalizes the survivors to orders
1,2 in their old relative order, and reordering with the permutation
[13, 11, 12] yields exactly those ids with orders 1,2,3. -/
theorem C5_witness :
    ((get_process_steps (remove_step dbSteps 5 12) 5).map (·.step_order) =
        [1, 2] ∧
      (get_process_steps (remove_step dbSteps 5 12) 5).map (·.id) = [11, 13]) ∧
    ((get_process_steps (reorder_process_steps dbSteps 5 [13, 11, 12]) 5).map
        (·.step_order) = [1, 2, 3] ∧
      (get_process_steps (reorder_process_steps dbSteps 5 [13, 11, 12]) 5).map
        (·.id) = [13, 11, 12]) := by
  have h := C5_step_orders_contiguous dbSteps 5 12 [13, 11, 12] (by decide) (by decide)
  have h2 := h.2 (by decide)
  exact ⟨⟨h.1.1.trans (by decide), h.1.2.trans (by decide)⟩,
    h2.1.trans (by decide), h2.2⟩

/-! ## Claim C9 — search matching and ordering -/

/-- The query contains no SQL LIKE wildcard characters. -/
def noWildcards (q : String) : Prop := ∀ c ∈ q.data, c ≠ '%' ∧ c ≠ '_'

instance (q : String) : Decidable (noWildcards q) := by
  unfold noWildcards
  infer_instance

/-- Case-insensitive (ASCII) substring containment — the claim's notion
of matching. -/
def ciSubstring (q s : String) : Prop :=
  (q.data.map sqliteLower) <:+: (s.data.map sqliteLower)

instance (q s : String) : Decidable (ciSubstring q s) := by
  unfold ciSubstring
  infer_instance

/-- `ciSubstring` on a nullable column (NULL never matches). -/
def ciSubstringOpt (q : String) (v : Option String) : Prop :=
  match v with
  | none => False
  | some s => ciSubstring q s

instance (q : String) (v : Option String) : Decidable (ciSubstringOpt q v) := by
  cases v with
  | none => exact isFalse fun h => h
  | some s => exact inferInstanceAs (Decidable (ciSubstring q s))

lemma likeMatch_pct (ps : List Char) (s : List Char) :
    likeMatch ('%' :: ps) s = true ↔ ∃ t, t <:+ s ∧ likeMatch ps t = true := by
  have h : likeMatch ('%' :: ps) s = s.tails.any fun t => likeMatch ps t := by
    conv_lhs => rw [likeMatch.eq_def]
    simp
  rw [h, List.any_eq_true]
  constructor
  · rintro ⟨t, ht, hm⟩
    exact ⟨t, (List.mem_tails t s).mp ht, hm⟩
  · rintro ⟨t, ht, hm⟩
    exact ⟨t, (List.mem_tails t s).mpr ht, hm⟩

lemma likeMatch_literal (q : List Char) (hq : ∀ c ∈ q, c ≠ '%' ∧ c ≠ '_') :
    ∀ t, (likeMatch (q ++ ['%']) t = true ↔
      (q.map sqliteLower) <+: (t.map sqliteLower)) := by
  induction q with
  | nil =>
      intro t
      have hl : likeMatch ['%'] t = true := by
        rw [likeMatch_pct]
        exact ⟨[], List.nil_suffix, rfl⟩
      rw [List.nil_append]
      simp [hl]
  | cons a q' ih =>
      intro t
      have ha := hq a (List.mem_cons_self a q')
      have hrest : ∀ c ∈ q', c ≠ '%' ∧ c ≠ '_' :=
        fun c hc => hq c (List.mem_cons_of_mem a hc)
      cases t with
      | nil =>
          rw [List.cons_append, likeMatch, if_neg ha.1]
          simp
      | cons c t' =>
          rw [List.cons_append, likeMatch, if_neg ha.1]
          rw [List.map_cons, List.map_cons, List.cons_prefix_cons]
          simp only [Bool.and_eq_true, Bool.or_eq_true, decide_eq_true_eq]
          constructor
          · rintro ⟨h_ | h_, h2⟩
            · exact absurd h_ ha.2
            · exact ⟨h_, (ih hrest t').mp h2⟩
          · rintro ⟨h1, h2⟩
            exact ⟨Or.inr h1, (ih hrest t').mpr h2⟩

lemma suffix_of_map {f : Char → Char} {l t : List Char}
    (h : t <:+ l.map f) : ∃ u, u <:+ l ∧ t = u.map f := by
  obtain ⟨p, hp⟩ := h
  obtain ⟨l₁, l₂, hl, _, h2⟩ := List.map_eq_append_iff.mp hp.symm
  exact ⟨l₂, ⟨l₁, hl.symm⟩, h2.symm⟩

lemma sqlLike_wildcard_free (q s : String) (hq : noWildcards q) :
    sqlLike s ("%" ++ q ++ "%") = true ↔ ciSubstring q s := by
  unfold sqlLike ciSubstring
  have hdata : ("%" ++ q ++ "%").data = '%' :: (q.data ++ ['%']) := by
    rw [String.data_append, String.data_append]
    rfl
  rw [hdata, likeMatch_pct]
  constructor
  · rintro ⟨t, hsuf, hmatch⟩
    have hpre := (likeMatch_literal q.data hq t).mp hmatch
    exact List.infix_iff_prefix_suffix.mpr
      ⟨t.map sqliteLower, hpre, hsuf.map sqliteLower⟩
  · intro hinf
    obtain ⟨t', hpre, hsuf⟩ := List.infix_iff_prefix_suffix.mp hinf
    obtain ⟨u, hu, rfl⟩ := suffix_of_map hsuf
    exact ⟨u, hu, (likeMatch_literal q.data hq u).mpr hpre⟩

lemma optLike_wildcard_free (q : String) (hq : noWildcards q) (v : Option String) :
    optLike v ("%" ++ q ++ "%") = true ↔ ciSubstringOpt q v := by
  cases v with
  | none =>
      constructor
      · intro h
        exact absurd h (by simp [optLike])
      · intro h
        exact absurd h fun h => h
  | some s => exact sqlLike_wildcard_free q s hq

/-- C9 (amended): for a query containing no LIKE wildcard (`%`/`_`)
characters, `search_processes` returns exactly the active, non-archived
rows for which the query is an ASCII-case-insensitive substring of the
name, the description, or the tags (a NULL column never matches), and
the result is ordered by `use_count` descending, then `name`
ascending — not left unranked as the claim states. -/
theorem C9_search_matching (db : SqlDB) (q : String) (hq : noWildcards q) :
    (∀ r, r ∈ search_processes db q ↔
      (r ∈ db.processes ∧ r.is_active = 1 ∧ r.is_archived = 0 ∧
        (ciSubstring q r.name ∨ ciSubstringOpt q r.description ∨
          ciSubstringOpt q r.tags))) ∧
    (search_processes db q).Pairwise (fun a b =>
      b.use_count < a.use_count ∨
        (a.use_count = b.use_count ∧ a.name ≤ b.name)) := by
  constructor
  · intro r
    unfold search_processes
    rw [mem_sortBy, List.mem_filter]
    simp only [Bool.and_eq_true, Bool.or_eq_true, beq_iff_eq]
    constructor
    · rintro ⟨hmem, ⟨hmatch, hact⟩, harch⟩
      refine ⟨hmem, hact, harch, ?_⟩
      rcases hmatch with (h | h) | h
      · exact Or.inl ((sqlLike_wildcard_free q r.name hq).mp h)
      · exact Or.inr (Or.inl ((optLike_wildcard_free q hq r.description).mp h))
      · exact Or.inr (Or.inr ((optLike_wildcard_free q hq r.tags).mp h))
    · rintro ⟨hmem, hact, harch, hmatch⟩
      refine ⟨hmem, ⟨?_, hact⟩, harch⟩
      rcases hmatch with h | h | h
      · exact Or.inl (Or.inl ((sqlLike_wildcard_free q r.name hq).mpr h))
      · exact Or.inl (Or.inr ((optLike_wildcard_free q hq r.description).mpr h))
      · exact Or.inr ((optLike_wildcard_free q hq r.tags).mpr h)
  · unfold search_processes
    dsimp only
    refine List.Pairwise.imp ?_ (pairwise_sortBy ?_ ?_ _)
    · intro a b h
      simp only [Bool.or_eq_true, Bool.and_eq_true, decide_eq_true_eq] at h
      exact h
    · exact (fun a b c hab hbc => by
        simp only [Bool.or_eq_true, Bool.and_eq_true, decide_eq_true_eq] at *
        rcases hab with h1 | ⟨h1, h1'⟩ <;> rcases hbc with h2 | ⟨h2, h2'⟩
        · exact Or.inl (lt_trans h2 h1)
        · exact Or.inl (h2 ▸ h1)
        · exact Or.inl (h1 ▸ h2)
        · exact Or.inr ⟨h1.trans h2, le_trans h1' h2'⟩)
    · exact (fun a b => by
        simp only [Bool.or_eq_true, Bool.and_eq_true, decide_eq_true_eq]
        rcases lt_trichotomy a.use_count b.use_count with h | h | h
        · exact Or.inr (Or.inl h)
        · rcases le_total a.name b.name with hn | hn
          · exact Or.inl (Or.inr ⟨h, hn⟩)
          · exact Or.inr (Or.inr ⟨h.symm, hn⟩)
        · exact Or.inl (Or.inl h))

/-- C9 counterexample: an archived process whose name contains the
query case-insensitively is not returned, so the result set is not
"exactly the processes for which the query is a case-insensitive
substring of the name, the description, or the tags". -/
theorem C9_archived_match_cex :
    rowArchived ∉ search_processes dbSearch "alp" ∧
    ciSubstring "alp" rowArchived.name ∧
    rowArchived ∈ dbSearch.processes := by decide

/-- C9 witness: the amended characterisation at a concrete table —
the active matching row is returned, the archived one is not. -/
theorem C9_search_matching_witness :
    rowActive ∈ search_processes dbSearch "alp" ∧
    rowArchived ∉ search_processes dbSearch "alp" := by
  have h := C9_search_matching dbSearch "alp" (by decide)
  refine ⟨(h.1 rowActive).mpr ⟨by decide, by decide, by decide,
    Or.inl (by decide)⟩, fun hmem => ?_⟩
  have hc := (h.1 rowArchived).mp hmem
  exact absurd hc.2.2.1 (by decide)

end WidgSid
